import Mathlib

namespace Qodana

/-!
# Verification of the qodana-cli container lifecycle subsystem

A shallow embedding, in Lean 4, of the container-based analysis execution
path of the qodana-cli repository: the image policy (`CheckImage`), the
registry puller (`pullImage`), the container configuration builder
(`getDockerOptions` with `extractDockerVolumes`), the run entry point
(`runQodanaContainer`), the interrupt cleanup (`ContainerCleanup`), the
run identifier computation (`computeId` over a full SHA-256
implementation), and the archive extraction path-traversal guards
(`unpackZip`, `extractTarGz`, `isInDirectory` over Go's lexical
`filepath.Clean`/`Join`/`Rel` semantics).

Modelling conventions:
* Go strings are Lean `String`s; the byte view needed for hashing uses
  UTF-8 encoding (`strBytes`).
* Machine integers are `Nat`/`Int` with explicit reduction modulo `2^32`
  where the source relies on 32-bit wraparound (SHA-256 words).
* Calls to the container engine are recorded in an explicit trace
  (`EngineCall`); external oracles (daemon info, pull results, credential
  store, wait status) are inputs.
* `log.Fatal`, which terminates the Go process, is modelled as an error
  outcome (`RunOutcome.fatal` / `Except.error` / an `Option String`
  fatal-message component) that short-circuits the remaining effects.
-/

/-! ## Go string primitives

Executable counterparts of the `strings` standard-library functions used
by the source (`HasPrefix`, `Contains`, `Split` with a one-character
separator, `ToLower`), implemented over `List Char`. -/

/-- Boolean list-prefix test (counterpart of `strings.HasPrefix` on the
character level). -/
def listStarts {α : Type} [DecidableEq α] : List α → List α → Bool
  | [], _ => true
  | _ :: _, [] => false
  | a :: ps, b :: cs => if a = b then listStarts ps cs else false

/-- Boolean sublist test: `listHas sub s` is true when `sub` occurs as a
contiguous run inside `s` (counterpart of `strings.Contains`). -/
def listHas {α : Type} [DecidableEq α] (sub : List α) : List α → Bool
  | [] => decide (sub = [])
  | a :: rest => listStarts sub (a :: rest) || listHas sub rest

/-- `strings.Split` with a one-character separator, on `List Char`.
Mirrors Go: splitting the empty string yields one empty field, and a
separator occurrence always contributes a field boundary. -/
def splitCh (sep : Char) : List Char → List (List Char)
  | [] => [[]]
  | a :: rest =>
    if a = sep then [] :: splitCh sep rest
    else
      match splitCh sep rest with
      | [] => [[a]]
      | h :: t => (a :: h) :: t

/-- Joining with a one-character separator (counterpart of
`strings.Join` with a one-character separator). -/
def intercCh (sep : Char) : List (List Char) → List Char
  | [] => []
  | [x] => x
  | x :: y :: rest => x ++ sep :: intercCh sep (y :: rest)

/-- `strings.HasPrefix s pre`. -/
def strStarts (s pre : String) : Bool := listStarts pre.data s.data

/-- `strings.Contains s sub`. -/
def strHas (s sub : String) : Bool := listHas sub.data s.data

/-- `strings.ToLower` (ASCII case folding; all error strings matched by
the source are ASCII). -/
def lowerStr (s : String) : String := ⟨s.data.map Char.toLower⟩

/-- `strings.Split` with a one-character separator, on `String`. -/
def splitStr (s : String) (sep : Char) : List String :=
  (splitCh sep s.data).map (fun l => ⟨l⟩)

/-- Modelled from the spec: `strutil.SafeSplit` (the `platform/strutil`
package is not under `src/`). Per the spec it selects the index-th
separator-delimited segment — "the substring before the first path
separator" at index 0 — and is empty when the index is out of range. -/
def SafeSplit (s : String) (sep : Char) (index : Nat) : String :=
  (splitStr s sep).getD index ""

/-- Modelled from the spec: `strutil.Lower` (the `platform/strutil`
package is not under `src/`); the spec prescribes case-insensitive
substring matching, realized by lowercasing. -/
def Lower (s : String) : String := lowerStr s

/-! ## Image Policy (part_003: `CheckImage` and its helpers)

The source emits warnings through `msg.WarningMessageCI`; the model
returns the list of emitted warnings instead.  `version.Version` (the
running CLI's own version string, a build-time variable outside `src/`)
is a parameter. -/

/-- `product.ReleaseVersion` (part_000). -/
def ReleaseVersion : String := "2025.1"

/-- The official Qodana image namespace, which official image references
start with (`officialImagePrefix`, part_003). -/
def officialImageNs : String := "jetbrains/qodana"

/-- `isUnofficialLinter` (part_003): the linter reference does not start
with the official namespace. -/
def isUnofficialLinter (linter : String) : Bool :=
  !(strStarts linter officialImageNs)

/-- `hasExactVersionTag` (part_003): the reference has a `:` and is not
tagged `latest`. -/
def hasExactVersionTag (linter : String) : Bool :=
  strHas linter ":" && !(strHas linter ":latest")

/-- `isCompatibleLinter` (part_003): the reference mentions the current
release version. -/
def isCompatibleLinter (linter : String) : Bool :=
  strHas linter ReleaseVersion

/-- The warnings `CheckImage` can emit. -/
inductive ImageWarning : Type
  | unofficial
  | unpinned
  | incompatible
deriving DecidableEq, Repr

/-- `CheckImage` (part_003), returning the list of emitted warnings in
emission order.  `version` is the running CLI's `version.Version`. -/
def CheckImage (version : String) (linter : String) : List ImageWarning :=
  if strHas version "nightly" || strHas version "dev" then []
  else
    (if isUnofficialLinter linter then [ImageWarning.unofficial] else [])
    ++
    (if !(hasExactVersionTag linter) then [ImageWarning.unpinned]
     else if !(isCompatibleLinter linter) then [ImageWarning.incompatible]
     else [])

/-! ## SHA-256 (`crypto/sha256` together with `encoding/hex`, as consumed
by `getHash` in part_001)

32-bit words are `Nat`s reduced modulo `2^32 = 4294967296` after every
arithmetic step. -/

/-- `2^32`, the modulus for 32-bit word arithmetic. -/
def M32 : Nat := 4294967296

/-- 32-bit right rotation. -/
def rotr32 (n x : Nat) : Nat := ((x >>> n) ||| (x <<< (32 - n))) % M32

/-- SHA-256 choose function (bitwise negation is xor with `2^32 - 1`). -/
def chF (x y z : Nat) : Nat := (x &&& y) ^^^ ((x ^^^ (M32 - 1)) &&& z)

/-- SHA-256 majority function. -/
def majF (x y z : Nat) : Nat := (x &&& y) ^^^ (x &&& z) ^^^ (y &&& z)

/-- SHA-256 big sigma 0. -/
def bSig0 (x : Nat) : Nat := rotr32 2 x ^^^ rotr32 13 x ^^^ rotr32 22 x

/-- SHA-256 big sigma 1. -/
def bSig1 (x : Nat) : Nat := rotr32 6 x ^^^ rotr32 11 x ^^^ rotr32 25 x

/-- SHA-256 small sigma 0. -/
def sSig0 (x : Nat) : Nat := rotr32 7 x ^^^ rotr32 18 x ^^^ (x >>> 3)

/-- SHA-256 small sigma 1. -/
def sSig1 (x : Nat) : Nat := rotr32 17 x ^^^ rotr32 19 x ^^^ (x >>> 10)

/-- The 64 SHA-256 round constants (FIPS 180-4, in decimal). -/
def K256 : List Nat :=
  [1116352408, 1899447441, 3049323471, 3921009573,
   961987163, 1508970993, 2453635748, 2870763221,
   3624381080, 310598401, 607225278, 1426881987,
   1925078388, 2162078206, 2614888103, 3248222580,
   3835390401, 4022224774, 264347078, 604807628,
   770255983, 1249150122, 1555081692, 1996064986,
   2554220882, 2821834349, 2952996808, 3210313671,
   3336571891, 3584528711, 113926993, 338241895,
   666307205, 773529912, 1294757372, 1396182291,
   1695183700, 1986661051, 2177026350, 2456956037,
   2730485921, 2820302411, 3259730800, 3345764771,
   3516065817, 3600352804, 4094571909, 275423344,
   430227734, 506948616, 659060556, 883997877,
   958139571, 1322822218, 1537002063, 1747873779,
   1955562222, 2024104815, 2227730452, 2361852424,
   2428436474, 2756734187, 3204031479, 3329325298]

/-- The SHA-256 initial hash state (FIPS 180-4, in decimal). -/
def H256 : List Nat :=
  [1779033703, 3144134277, 1013904242, 2773480762,
   1359893119, 2600822924, 528734635, 1541459225]

/-- Big-endian 4-byte encoding of a 32-bit word. -/
def be32 (n : Nat) : List Nat :=
  [(n >>> 24) % 256, (n >>> 16) % 256, (n >>> 8) % 256, n % 256]

/-- Big-endian 8-byte encoding of a 64-bit length. -/
def be64 (n : Nat) : List Nat :=
  [(n >>> 56) % 256, (n >>> 48) % 256, (n >>> 40) % 256, (n >>> 32) % 256,
   (n >>> 24) % 256, (n >>> 16) % 256, (n >>> 8) % 256, n % 256]

/-- SHA-256 padding: append `0x80`, zero bytes to 56 mod 64, and the
bit length as a big-endian 64-bit integer. -/
def padMessage (msg : List Nat) : List Nat :=
  let k := (56 + 64 - ((msg.length + 1) % 64)) % 64
  msg ++ 0x80 :: List.replicate k 0 ++ be64 (msg.length * 8)

/-- Split a byte list into 64-byte blocks (structural recursion on a
length bound, so that the kernel can evaluate it). -/
def chunksGo : Nat → List Nat → List (List Nat)
  | _, [] => []
  | 0, _ :: _ => []
  | fuel + 1, a :: rest => ((a :: rest).take 64) :: chunksGo fuel (rest.drop 63)

/-- Split a byte list into 64-byte blocks. -/
def chunks64 (l : List Nat) : List (List Nat) := chunksGo l.length l

/-- Parse consecutive 4-byte groups as big-endian 32-bit words. -/
def words16 : List Nat → List Nat
  | b0 :: b1 :: b2 :: b3 :: rest =>
    (((b0 * 256 + b1) * 256 + b2) * 256 + b3) :: words16 rest
  | _ => []

/-- Extend the 16-word message schedule by `n` further words. -/
def extendW (w : List Nat) : Nat → List Nat
  | 0 => w
  | n + 1 =>
    let j := w.length
    let nw := (sSig1 (w.getD (j - 2) 0) + w.getD (j - 7) 0 +
               sSig0 (w.getD (j - 15) 0) + w.getD (j - 16) 0) % M32
    extendW (w ++ [nw]) n

/-- One SHA-256 compression round on the 8-word working state. -/
def shaRound (st : List Nat) (kw : Nat × Nat) : List Nat :=
  match st with
  | [a, b, c, d, e, f, g, h] =>
    let t1 := (h + bSig1 e + chF e f g + kw.1 + kw.2) % M32
    let t2 := (bSig0 a + majF a b c) % M32
    [(t1 + t2) % M32, a, b, c, (d + t1) % M32, e, f, g]
  | other => other

/-- SHA-256 compression of one 64-byte block into the hash state. -/
def shaCompress (hs : List Nat) (block : List Nat) : List Nat :=
  let w := extendW (words16 block) 48
  let fin := (K256.zip w).foldl shaRound hs
  (hs.zip fin).map (fun p => (p.1 + p.2) % M32)

/-- SHA-256 of a byte list, as a 32-byte digest. -/
def sha256 (msg : List Nat) : List Nat :=
  (((chunks64 (padMessage msg)).foldl shaCompress H256).map be32).flatten

/-- Lower-case hex digit. -/
def hexDigit (n : Nat) : Char :=
  if n < 10 then Char.ofNat (48 + n) else Char.ofNat (87 + n)

/-- `hex.EncodeToString`: lower-case hex of a byte list. -/
def hexEncode (bytes : List Nat) : String :=
  ⟨(bytes.map (fun b => [hexDigit (b / 16), hexDigit (b % 16)])).flatten⟩

/-- UTF-8 encoding of one character (Go `[]byte(s)` is UTF-8). -/
def utf8Bytes (c : Char) : List Nat :=
  let n := c.toNat
  if n < 128 then [n]
  else if n < 2048 then [192 + n / 64, 128 + n % 64]
  else if n < 65536 then [224 + n / 4096, 128 + (n / 64) % 64, 128 + n % 64]
  else [240 + n / 262144, 128 + (n / 4096) % 64, 128 + (n / 64) % 64,
        128 + n % 64]

/-- The UTF-8 bytes of a string (Go `[]byte(s)`). -/
def strBytes (s : String) : List Nat := (s.data.map utf8Bytes).flatten

/-! ## Run identifier (part_001: `computeId`, `getHash`) -/

/-- `getHash` (part_001): lower-case hex of the SHA-256 of a string. -/
def getHash (s : String) : String := hexEncode (sha256 (strBytes s))

/-- The analyzer identity selected by `computeId` (part_001): the linter
when non-empty, else the IDE code when non-empty, else empty. -/
def analyzerOf (linter ide : String) : String :=
  if linter ≠ "" then linter else if ide ≠ "" then ide else ""

/-- `computeId` (part_001).  `filepath.Abs` depends on the process
working directory and is passed in as the function `abs`; the source
sets `length := 7` and slices `[0 : length + 1]`, i.e. the first 8 hex
characters of each hash. -/
def computeId (abs : String → String) (linter ide projectDir : String) :
    String :=
  let length := 7
  let projectAbs := abs projectDir
  (⟨(getHash (analyzerOf linter ide)).data.take (length + 1)⟩ : String) ++
    "-" ++ ⟨(getHash projectAbs).data.take (length + 1)⟩

/-! ## Container configuration builder (part_003: `getDockerOptions`,
`extractDockerVolumes`, and helpers)

External inputs that the Go code reads ambiently are explicit
parameters: `filepath.Abs` is the function `abs` (it depends on the
process working directory), the consumed OS environment variables and
`cloud.GetCloudRootEndpoint().Url` are an `OsEnv` record, and
`GetIdeArgs(c)` (an external per-linter translator) is the opaque list
`cmdOpts`.  `qdenv.ExtractQodanaEnvironment`, which folds selected OS
variables into the context, is treated as already applied to `c.env`. -/

/-- Modelled from the spec: the upload-token environment variable name
(`qdenv.QodanaToken`; the `qdenv` package is not under `src/`, the spec
fixes a stable upload-token variable). -/
def QodanaToken : String := "QODANA_TOKEN"

/-- Modelled from the spec: the license-only-token environment variable
name (`qdenv.QodanaLicenseOnlyToken`, not under `src/`). -/
def QodanaLicenseOnlyToken : String := "QODANA_LICENSE_ONLY_TOKEN"

/-- Modelled from the spec: fixed in-container cache path
(`qdcontainer.DataCacheDir`, not under `src/`). -/
def DataCacheDir : String := "/data/cache"

/-- Modelled from the spec: fixed in-container project path. -/
def DataProjectDir : String := "/data/project"

/-- Modelled from the spec: fixed in-container results path. -/
def DataResultsDir : String := "/data/results"

/-- Modelled from the spec: fixed in-container report path. -/
def DataResultsReportDir : String := "/data/results/report"

/-- Modelled from the spec: fixed in-container global-config path. -/
def DataGlobalConfigDir : String := "/data/global-config"

/-- `containerJvmDebugPort` (part_003): the fixed internal debug port. -/
def containerJvmDebugPort : String := "5005"

/-- A bind mount (`mount.Mount` with `Type: mount.TypeBind`). -/
structure Mount where
  source : String
  target : String
deriving DecidableEq, Repr

/-- One host binding of a published port (`nat.PortBinding`). -/
structure PortBinding where
  hostIP : String
  hostPort : String
deriving DecidableEq, Repr

/-- The container creation specification assembled by `getDockerOptions`
(`backend.ContainerCreateConfig` restricted to the fields the source
sets). -/
structure ContainerCreateConfig where
  name : String
  image : String
  cmd : List String
  tty : Bool
  attachStdout : Bool
  attachStderr : Bool
  env : List String
  user : String
  exposedPorts : List String
  autoRemove : Bool
  mounts : List Mount
  capAdd : List String
  securityOpt : List String
  portBindings : List (String × List PortBinding)
  networkMode : String
deriving DecidableEq, Repr

/-- The resolved scan context (`corescan.Context` restricted to the
accessors the container path reads). -/
structure ScanContext where
  env : List String
  qodanaUploadToken : String
  cacheDir : String
  projectDir : String
  resultsDir : String
  reportDir : String
  id : String
  globalConfigurationsDir : String
  volumes : List String
  user : String
  jvmDebugPort : Int
  skipPull : Bool
deriving Repr

/-- The ambient inputs of `getDockerOptions`: OS environment variables
and the cloud endpoint URL. -/
structure OsEnv where
  licenseOnlyToken : String
  cliContainerName : String
  cliContainerKeep : String
  cloudEndpointUrl : String
  interactive : Bool
deriving Repr

/-- The environment-list construction of `getDockerOptions`
(part_003 lines 285–293): append the upload-token entry only when the
upload token is non-empty, then the license-only entry only when it is
non-empty and no upload token is set. -/
def buildDockerEnv (baseEnv : List String) (uploadToken licenseOnlyToken : String) :
    List String :=
  let env1 :=
    if uploadToken ≠ "" then baseEnv ++ [QodanaToken ++ "=" ++ uploadToken]
    else baseEnv
  if licenseOnlyToken ≠ "" ∧ uploadToken = "" then
    env1 ++ [QodanaLicenseOnlyToken ++ "=" ++ licenseOnlyToken]
  else env1

/-- `extractDockerVolumes` (part_003), POSIX branch (`runtime.GOOS`
is not `windows`): first two colon-delimited segments, or an empty pair
when either is empty. -/
def extractDockerVolumes (volume : String) : String × String :=
  let source := SafeSplit volume ':' 0
  let target := SafeSplit volume ':' 1
  if source ≠ "" ∧ target ≠ "" then (source, target) else ("", "")

/-- The user-volume loop of `getDockerOptions` (part_003 lines
354–367): each parsed volume contributes one bind mount, a volume that
does not parse is a fatal configuration error (`log.Fatal`). -/
def buildUserMounts : List String → Except String (List Mount)
  | [] => Except.ok []
  | v :: vs =>
    let st := extractDockerVolumes v
    if st.1 ≠ "" ∧ st.2 ≠ "" then
      match buildUserMounts vs with
      | Except.error e => Except.error e
      | Except.ok ms => Except.ok (⟨st.1, st.2⟩ :: ms)
    else Except.error ("couldn't parse volume " ++ v)

/-- The container name chosen by `getDockerOptions` (part_003 lines
311–314): the override environment variable when set, else the fixed
prefix plus the run identifier. -/
def containerNameOf (osEnv : OsEnv) (c : ScanContext) : String :=
  if osEnv.cliContainerName = "" then "qodana-cli-" ++ c.id
  else osEnv.cliContainerName

/-- The four fixed bind mounts plus the optional global-config mount
(part_003 lines 315–353). -/
def baseMounts (abs : String → String) (c : ScanContext) : List Mount :=
  let fixed : List Mount :=
    [⟨abs c.cacheDir, DataCacheDir⟩,
     ⟨abs c.projectDir, DataProjectDir⟩,
     ⟨abs c.resultsDir, DataResultsDir⟩,
     ⟨abs c.reportDir, DataResultsReportDir⟩]
  if c.globalConfigurationsDir ≠ "" then
    fixed ++ [⟨abs c.globalConfigurationsDir, DataGlobalConfigDir⟩]
  else fixed

/-- The container creation record assembled by `getDockerOptions`
(part_003 lines 374–431), given the already-parsed user mounts. -/
def mkDockerConfig (abs : String → String) (osEnv : OsEnv)
    (cmdOpts : List String) (c : ScanContext) (image : String)
    (userMounts : List Mount) : ContainerCreateConfig :=
    { name := containerNameOf osEnv c
      image := image
      cmd := cmdOpts
      tty := osEnv.interactive
      attachStdout := true
      attachStderr := true
      env := buildDockerEnv c.env c.qodanaUploadToken osEnv.licenseOnlyToken
      user := c.user
      exposedPorts := if 0 < c.jvmDebugPort then [containerJvmDebugPort] else []
      autoRemove := osEnv.cliContainerKeep = ""
      mounts := baseMounts abs c ++ userMounts
      capAdd := if strHas image "dotnet" then ["SYS_PTRACE"] else []
      securityOpt := if strHas image "dotnet" then ["seccomp=unconfined"] else []
      portBindings :=
        if 0 < c.jvmDebugPort then
          [(containerJvmDebugPort,
            [⟨"0.0.0.0", toString c.jvmDebugPort⟩])]
        else []
      networkMode :=
        if strStarts osEnv.cloudEndpointUrl "http://" then "host" else "" }

/-- `getDockerOptions` (part_003): assembles the container creation
specification; a volume that fails to parse aborts with a fatal error
before anything is returned. -/
def getDockerOptions (abs : String → String) (osEnv : OsEnv)
    (cmdOpts : List String) (c : ScanContext) (image : String) :
    Except String ContainerCreateConfig :=
  (buildUserMounts c.volumes).map (mkDockerConfig abs osEnv cmdOpts c image)

/-- Modelled from the spec's words, for comparison with the code (C7):
"the configured cloud endpoint is a plaintext (non-TLS) local endpoint
(URL scheme http and local host)".  The scheme is the text before the
first `:`; the host is the authority part up to the first `/` or `:`. -/
def urlScheme (url : String) : String := SafeSplit url ':' 0

/-- The host part of a URL (spec-side helper for C7). -/
def urlHost (url : String) : String :=
  let rest := SafeSplit url ':' 1
  let rest2 : String := if strStarts rest "//" then ⟨rest.data.drop 2⟩ else rest
  ⟨rest2.data.takeWhile (fun ch => !(ch == '/') && !(ch == ':'))⟩

/-- Spec-side local-host test for C7. -/
def isLocalHostName (h : String) : Bool :=
  h == "localhost" || h == "127.0.0.1" || h == "::1"

/-- The spec's condition for forcing host networking (C7): scheme
`http` and local host. -/
def specLocalPlaintext (url : String) : Bool :=
  urlScheme url == "http" && isLocalHostName (urlHost url)

/-! ## Registry puller (part_003: `pullImage`, `isDockerUnauthorizedError`,
`encodeAuthToBase64`)

The container engine and the credential store are oracles recorded in
`PullEnv`: the outcome of the anonymous pull, of the credential-config
load, of the per-registry credential lookup, of the authenticated pull,
and of draining the pull response stream.  `log.Fatal` is an
`Option String` fatal-message result. -/

/-- `registry.AuthConfig`: the credential record marshalled to JSON (all
fields use `omitempty`). -/
structure AuthConfig where
  username : String
  password : String
  auth : String
  email : String
  serveraddress : String
  identitytoken : String
  registrytoken : String
deriving DecidableEq, Repr

/-- Character of the base64 URL-safe alphabet (`base64.URLEncoding`). -/
def b64Char (n : Nat) : Char :=
  if n < 26 then Char.ofNat (65 + n)
  else if n < 52 then Char.ofNat (97 + (n - 26))
  else if n < 62 then Char.ofNat (48 + (n - 52))
  else if n = 62 then '-' else '_'

/-- Base64 URL-safe encoding with padding, as a character list. -/
def b64Go : List Nat → List Char
  | [] => []
  | [a] => [b64Char (a / 4), b64Char ((a % 4) * 16), '=', '=']
  | [a, b] =>
    [b64Char (a / 4), b64Char ((a % 4) * 16 + b / 16),
     b64Char ((b % 16) * 4), '=']
  | a :: b :: c :: rest =>
    b64Char (a / 4) :: b64Char ((a % 4) * 16 + b / 16) ::
      b64Char ((b % 16) * 4 + c / 64) :: b64Char (c % 64) :: b64Go rest

/-- `base64.URLEncoding.EncodeToString`. -/
def base64UrlEncode (bytes : List Nat) : String := ⟨b64Go bytes⟩

/-- JSON string escaping (quotes and backslashes; the tokens handled
here contain no control characters). -/
def jsonEscape (s : String) : String :=
  ⟨(s.data.map (fun ch =>
      if ch = '"' ∨ ch = '\\' then ['\\', ch] else [ch])).flatten⟩

/-- One JSON object member, omitted when the value is empty
(`omitempty`). -/
def jsonField (name value : String) : List String :=
  if value = "" then []
  else ["\"" ++ name ++ "\":\"" ++ jsonEscape value ++ "\""]

/-- Comma-joined member list. -/
def joinComma : List String → String
  | [] => ""
  | [x] => x
  | x :: y :: rest => x ++ "," ++ joinComma (y :: rest)

/-- `json.Marshal` of a `registry.AuthConfig` (members in declaration
order, empty members omitted). -/
def jsonOfAuthConfig (a : AuthConfig) : String :=
  "\x7b" ++
    joinComma
      (jsonField "username" a.username ++ jsonField "password" a.password ++
       jsonField "auth" a.auth ++ jsonField "email" a.email ++
       jsonField "serveraddress" a.serveraddress ++
       jsonField "identitytoken" a.identitytoken ++
       jsonField "registrytoken" a.registrytoken) ++
    "\x7d"

/-- `encodeAuthToBase64` (part_003): the auth configuration as a base64
URL-encoded JSON payload.  (`json.Marshal` cannot fail on this struct,
so the error branch of the source is unreachable.) -/
def encodeAuthToBase64 (a : AuthConfig) : String :=
  base64UrlEncode (strBytes (jsonOfAuthConfig a))

/-- `isDockerUnauthorizedError` (part_003): case-insensitive match for
an authorization-class pull failure. -/
def isDockerUnauthorizedError (errMsg : String) : Bool :=
  let e := Lower errMsg
  strHas e "unauthorized" || strHas e "denied" || strHas e "forbidden"

/-- A recorded call to the container engine. -/
inductive EngineCall : Type
  | info
  | imagePull (image : String) (auth : Option String)
  | containerCreate (name : String)
  | containerStart
  | containerWait
  | containerList
  | containerStop (name : String)
deriving DecidableEq, Repr

/-- The pull-time oracles: anonymous-pull outcome, credential-config
load outcome, credential lookup outcome, the credential store itself,
authenticated-pull outcome, and stream-drain outcome (`none` =
success, `some e` = the error text). -/
structure PullEnv where
  anonError : Option String
  cfgLoadError : Option String
  authLookupError : Option String
  creds : String → AuthConfig
  authError : Option String
  readError : Option String

/-- `pullImage` (part_003): anonymous pull; on an authorization-class
failure, load local credentials for the registry host (the segment of
the image reference before the first `/`) and retry once with the
base64 JSON payload attached; every other failure is fatal.  Returns
the fatal message (if any) and the trace of `ImagePull` calls. -/
def pullImage (env : PullEnv) (image : String) :
    Option String × List EngineCall :=
  let t0 : List EngineCall := [EngineCall.imagePull image none]
  match env.anonError with
  | none =>
    (env.readError.map (fun e => "couldn't read the image pull logs " ++ e), t0)
  | some errMsg =>
    if isDockerUnauthorizedError errMsg then
      match env.cfgLoadError with
      | some e => (some e, t0)
      | none =>
        let registryHostname := SafeSplit image '/' 0
        match env.authLookupError with
        | some e => (some ("can't load the auth config " ++ e), t0)
        | none =>
          let encodedAuth := encodeAuthToBase64 (env.creds registryHostname)
          let t1 := t0 ++ [EngineCall.imagePull image (some encodedAuth)]
          match env.authError with
          | some e =>
            (some ("can't pull image from the private registry " ++ e), t1)
          | none =>
            (env.readError.map
              (fun e => "couldn't read the image pull logs " ++ e), t1)
    else (some ("can't pull image " ++ errMsg), t0)

/-- `PullImage` (part_003): the exported wrapper around `pullImage`
(the spinner UI has no effect on the pull logic). -/
def PullImage (env : PullEnv) (image : String) :
    Option String × List EngineCall :=
  pullImage env image

/-! ## Container run entry point (part_003: `runQodanaContainer`)

The model records engine calls in order.  Omitted relative to the
source, with no effect on the recorded calls or the outcome:
`fixDarwinCaches` (file-system operations only), `CheckImage` (warnings
only; modelled separately above), and the concurrent `followLinter`
log-streaming goroutine (observational only; the spec notes streaming
failures do not affect the exit code). -/

/-- The outcome of the containerized run: a returned exit status, or
process termination through `log.Fatal`. -/
inductive RunOutcome : Type
  | exit (code : Int)
  | fatal (msg : String)
deriving DecidableEq, Repr

/-- The run-time oracles: daemon-info outcome and reported OS type,
pull oracles, create/start outcomes, and the container-wait result. -/
structure RunEnv where
  infoError : Option String
  osType : String
  pull : PullEnv
  createError : Option String
  startError : Option String
  waitResult : Except String Int

/-- `runQodanaContainer` (part_003): daemon info, Linux-backend gate,
optional pull, configuration build, create, start, wait; the exit code
of the container becomes the returned status. -/
def runQodanaContainer (env : RunEnv) (abs : String → String)
    (osEnv : OsEnv) (cmdOpts : List String) (c : ScanContext)
    (image : String) : RunOutcome × List EngineCall :=
  match env.infoError with
  | some e =>
    (RunOutcome.fatal ("Couldn't retrieve Docker daemon information " ++ e),
     [EngineCall.info])
  | none =>
    if env.osType ≠ "linux" then (RunOutcome.exit 1, [EngineCall.info])
    else
      let pr : Option String × List EngineCall :=
        if c.skipPull then (none, []) else pullImage env.pull image
      let t1 := EngineCall.info :: pr.2
      match pr.1 with
      | some m => (RunOutcome.fatal m, t1)
      | none =>
        match getDockerOptions abs osEnv cmdOpts c image with
        | Except.error e => (RunOutcome.fatal e, t1)
        | Except.ok cfg =>
          let t2 := t1 ++ [EngineCall.containerCreate cfg.name]
          match env.createError with
          | some e => (RunOutcome.fatal ("couldn't create the container " ++ e), t2)
          | none =>
            let t3 := t2 ++ [EngineCall.containerStart]
            match env.startError with
            | some e =>
              (RunOutcome.fatal ("couldn't bootstrap the container " ++ e), t3)
            | none =>
              let t4 := t3 ++ [EngineCall.containerWait]
              match env.waitResult with
              | Except.error e =>
                (RunOutcome.fatal ("container hasn't finished " ++ e), t4)
              | Except.ok code => (RunOutcome.exit code, t4)

/-! ## Interrupt cleanup (part_003: `ContainerCleanup`) -/

/-- A running container as listed by the engine (`types.Container`
restricted to the `Names` field; the source indexes `Names[0]`,
modelled as `getD 0 ""`). -/
structure GoContainer where
  names : List String
deriving Repr

/-- The stop loop of `ContainerCleanup`: stop every listed container
whose first name is `/` plus the active container name; a stop failure
is fatal. -/
def stopMatching (containerName : String)
    (stopError : String → Option String) :
    List GoContainer → Option String × List EngineCall
  | [] => (none, [])
  | c :: rest =>
    let n0 := c.names.getD 0 ""
    if n0 = "/" ++ containerName then
      match stopError n0 with
      | some e =>
        (some ("couldn't stop the container " ++ e),
         [EngineCall.containerStop n0])
      | none =>
        let pr := stopMatching containerName stopError rest
        (pr.1, EngineCall.containerStop n0 :: pr.2)
    else stopMatching containerName stopError rest

/-- `ContainerCleanup` (part_003): when the process-wide container name
is still the sentinel `"qodana-cli"`, no container was created and
nothing is done; otherwise list containers and stop the matching one.
Returns the fatal message (if any) and the engine-call trace. -/
def ContainerCleanup (containerName : String)
    (listResult : Except String (List GoContainer))
    (stopError : String → Option String) :
    Option String × List EngineCall :=
  if containerName ≠ "qodana-cli" then
    match listResult with
    | Except.error e =>
      (some ("couldn't get the running containers " ++ e),
       [EngineCall.containerList])
    | Except.ok cs =>
      let pr := stopMatching containerName stopError cs
      (pr.1, EngineCall.containerList :: pr.2)
  else (none, [])

/-! ## Lexical path semantics (Go `path/filepath`, POSIX separator)

`filepath.Clean`, two-argument `filepath.Join` and `filepath.Rel` as
used by the archive extraction in `platform/embed.go`.  The element
processing of `Clean` and the common-prefix walk of `Rel` operate on
`/`-separated components, exactly as Go's index-based scans do. -/

/-- The element loop of `filepath.Clean`: skip empty and `.` elements;
`..` pops a previous regular element, is dropped at the root of a
rooted path, and is kept for an unrooted path that cannot pop.  `acc`
holds the emitted elements in reverse. -/
def cleanLoop (rooted : Bool) : List String → List String → List String
  | acc, [] => acc.reverse
  | acc, p :: ps =>
    if p = "" ∨ p = "." then cleanLoop rooted acc ps
    else if p = ".." then
      match acc with
      | [] => cleanLoop rooted (if rooted then [] else [".."]) ps
      | q :: rest =>
        if q = ".." then cleanLoop rooted (p :: q :: rest) ps
        else cleanLoop rooted rest ps
    else cleanLoop rooted (p :: acc) ps

/-- Join components with `/`. -/
def joinParts (ps : List String) : String :=
  ⟨intercCh '/' (ps.map String.data)⟩

/-- `filepath.Clean` (POSIX): empty input becomes `.`; elements are
processed by `cleanLoop`; a rooted result keeps its leading `/`; an
empty unrooted result becomes `.`. -/
def cleanPath (path : String) : String :=
  if path = "" then "."
  else
    let rooted := strStarts path "/"
    let parts := cleanLoop rooted [] (splitStr path '/')
    if rooted then "/" ++ joinParts parts
    else if parts = [] then "." else joinParts parts

/-- The cleaned components of a rooted path. -/
def rootedCleanParts (path : String) : List String :=
  cleanLoop true [] (splitStr path '/')

/-- Two-argument `filepath.Join`: empty elements are dropped, the rest
joined with `/` and cleaned. -/
def joinPath (dir name : String) : String :=
  if dir = "" then (if name = "" then "" else cleanPath name)
  else if name = "" then cleanPath dir
  else cleanPath (dir ++ "/" ++ name)

/-- The components of an already-cleaned path, without the root marker:
empty for `.` and `/`. -/
def cleanedParts (p : String) : List String :=
  if p = "." then []
  else if strStarts p "/" then
    (let body : String := ⟨p.data.drop 1⟩
     if body = "" then [] else splitStr body '/')
  else splitStr p '/'

/-- Strip the common prefix of two component lists (the element-wise
walk of `filepath.Rel`). -/
def dropCommon {α : Type} [DecidableEq α] :
    List α → List α → List α × List α
  | a :: as, b :: bs =>
    if a = b then dropCommon as bs else (a :: as, b :: bs)
  | as, bs => (as, bs)

/-- `filepath.Rel` (POSIX): clean both paths; identical paths yield
`.`; mixed rootedness is an error; after stripping the common component
prefix, a remaining leading `..` in the base is an error, otherwise the
result is one `..` per remaining base component followed by the
remaining target components.  `none` models the error return. -/
def relPath (basepath targpath : String) : Option String :=
  let base := cleanPath basepath
  let targ := cleanPath targpath
  if targ = base then some "." else
  if strStarts base "/" ≠ strStarts targ "/" then none
  else
    let bp := cleanedParts base
    let tp := cleanedParts targ
    let pr := dropCommon bp tp
    if pr.1.head? = some ".." then none
    else if pr.1 = [] then some (joinParts pr.2)
    else some (joinParts (pr.1.map (fun _ => "..") ++ pr.2))

/-- `isInDirectory` (platform/embed.go): the target is inside the
destination when `filepath.Rel` succeeds and its result does not start
with `..`. -/
def isInDirectory (destPath target : String) : Bool :=
  match relPath destPath target with
  | none => false
  | some relative => !(strStarts relative "..")

/-! ## Archive extraction (platform/embed.go: `unpackZip`,
`extractTarGz`)

Each extractor walks its entry list, checks the joined path, and
returns the list of paths written to disk (directories created and
files written) together with the first fatal error, which stops the
walk.  I/O oracles are not needed: the claim concerns only the
path-traversal guard. -/

/-- A zip archive entry (`zip.File` restricted to name and kind). -/
structure ZipEntry where
  name : String
  isDir : Bool
deriving Repr

/-- `unpackZip` (platform/embed.go): for each entry, join its name to
the destination; a joined path that does not start with
`Clean(dest) + "/"` aborts with an "illegal file path" error; otherwise
the path is created (directory or file). -/
def unpackZip (destPath : String) : List ZipEntry → List String × Option String
  | [] => ([], none)
  | f :: rest =>
    let fpath := joinPath destPath f.name
    if !(strStarts fpath (cleanPath destPath ++ "/")) then
      ([], some (fpath ++ ": illegal file path"))
    else
      let pr := unpackZip destPath rest
      (fpath :: pr.1, pr.2)

/-- A tar header type flag (`tar.TypeDir`, `tar.TypeReg`, others). -/
inductive TarType : Type
  | dir
  | reg
  | other
deriving DecidableEq, Repr

/-- A tar archive entry (`tar.Header` restricted to name and type). -/
structure TarEntry where
  name : String
  typeflag : TarType
deriving Repr

/-- `extractTarGz` (platform/embed.go): for each entry, join its name
to the destination; a target outside the destination (per
`isInDirectory`) aborts with an "illegal file path" error; directory
and regular entries are written, other types are skipped. -/
def extractTarGz (destPath : String) : List TarEntry → List String × Option String
  | [] => ([], none)
  | h :: rest =>
    let target := joinPath destPath h.name
    if !(isInDirectory destPath target) then
      ([], some (target ++ ": illegal file path"))
    else
      let pr := extractTarGz destPath rest
      match h.typeflag with
      | TarType.dir => (target :: pr.1, pr.2)
      | TarType.reg => (target :: pr.1, pr.2)
      | TarType.other => pr

/-- The claim's notion of an entry name that "joined to the destination
directory, resolves to a path outside that directory": the cleaned
components of the destination are not a prefix of the components of the
joined (hence cleaned) path. -/
def resolvesOutside (destPath name : String) : Bool :=
  !(listStarts (cleanedParts (cleanPath destPath))
      (cleanedParts (joinPath destPath name)))

/-! ## Theorems -/

/-! ### Lemmas about the string primitives -/

theorem listStarts_iff {α : Type} [DecidableEq α] (p s : List α) :
    listStarts p s = true ↔ ∃ t, s = p ++ t := by
  induction p generalizing s with
  | nil => simp [listStarts]
  | cons a ps ih =>
    cases s with
    | nil =>
      simp only [listStarts, Bool.false_eq_true, false_iff]
      rintro ⟨t, ht⟩
      exact List.noConfusion ht
    | cons b cs =>
      by_cases hab : a = b
      · subst hab
        have hstep : listStarts (a :: ps) (a :: cs) = listStarts ps cs := by
          simp [listStarts]
        rw [hstep, ih]
        constructor
        · rintro ⟨t, rfl⟩
          exact ⟨t, rfl⟩
        · rintro ⟨t, ht⟩
          injection ht with _ h2
          exact ⟨t, h2⟩
      · simp only [listStarts, if_neg hab, Bool.false_eq_true, false_iff]
        rintro ⟨t, ht⟩
        injection ht with h1 _
        exact hab h1.symm

theorem listStarts_refl {α : Type} [DecidableEq α] (p : List α) :
    listStarts p p = true :=
  (listStarts_iff p p).mpr ⟨[], by simp⟩

theorem listHas_of_append_self {α : Type} [DecidableEq α]
    (pre sub : List α) : listHas sub (pre ++ sub) = true := by
  induction pre with
  | nil =>
    cases sub with
    | nil => simp [listHas]
    | cons a r => simp [listHas, listStarts_refl]
  | cons a pre ih => simp [listHas, ih]

theorem listHas_append_right {α : Type} [DecidableEq α]
    (l sub s : List α) (h : listHas sub s = true) :
    listHas sub (l ++ s) = true := by
  induction l with
  | nil => simpa using h
  | cons a l ih => simp [listHas, ih]

theorem splitCh_ne_nil (sep : Char) (l : List Char) : splitCh sep l ≠ [] := by
  cases l with
  | nil => simp [splitCh]
  | cons a rest =>
    simp only [splitCh]
    by_cases h : a = sep
    · simp [h]
    · simp only [if_neg h]
      cases splitCh sep rest <;> simp

/-- Splitting distributes over an explicit separator occurrence. -/
theorem splitCh_append (sep : Char) (xs ys : List Char) :
    splitCh sep (xs ++ sep :: ys) = splitCh sep xs ++ splitCh sep ys := by
  induction xs with
  | nil =>
    cases hys : splitCh sep ys with
    | nil => exact absurd hys (splitCh_ne_nil sep ys)
    | cons h t => simp [splitCh, hys]
  | cons a xs ih =>
    by_cases h : a = sep
    · simp [splitCh, h, ih]
    · cases hxs : splitCh sep xs with
      | nil => exact absurd hxs (splitCh_ne_nil sep xs)
      | cons hh tt =>
        simp [splitCh, if_neg h, ih, hxs]

/-- A list free of the separator splits into a single field. -/
theorem splitCh_eq_single (sep : Char) (l : List Char)
    (h : sep ∉ l) : splitCh sep l = [l] := by
  induction l with
  | nil => simp [splitCh]
  | cons a rest ih =>
    have ha : ¬ a = sep := fun e => h (e ▸ List.mem_cons_self a rest)
    have hr : sep ∉ rest := fun e => h (List.mem_cons_of_mem a e)
    simp [splitCh, if_neg ha, ih hr]

/-- No field produced by splitting contains the separator. -/
theorem splitCh_sep_not_mem (sep : Char) (l : List Char) :
    ∀ part ∈ splitCh sep l, sep ∉ part := by
  induction l with
  | nil => simp [splitCh]
  | cons a rest ih =>
    by_cases h : a = sep
    · simp only [splitCh, if_pos h, List.mem_cons]
      rintro part (rfl | hp)
      · simp
      · exact ih part hp
    · simp only [splitCh, if_neg h]
      cases hrest : splitCh sep rest with
      | nil => exact absurd hrest (splitCh_ne_nil sep rest)
      | cons hh tt =>
        simp only [List.mem_cons]
        rintro part (rfl | hp)
        · intro hmem
          rcases List.mem_cons.mp hmem with rfl | hmem2
          · exact h rfl
          · exact ih hh (hrest ▸ List.mem_cons_self hh tt) hmem2
        · exact ih part (hrest ▸ List.mem_cons_of_mem hh hp)

/-- Splitting a join recovers the fields, provided no field contains the
separator. -/
theorem splitCh_intercCh (sep : Char) (ps : List (List Char))
    (hne : ps ≠ []) (h : ∀ p ∈ ps, sep ∉ p) :
    splitCh sep (intercCh sep ps) = ps := by
  induction ps with
  | nil => exact absurd rfl hne
  | cons x rest ih =>
    cases rest with
    | nil => exact splitCh_eq_single sep x (h x (by simp))
    | cons y rest2 =>
      have hx : sep ∉ x := h x (by simp)
      have hr : ∀ p ∈ y :: rest2, sep ∉ p :=
        fun p hp => h p (List.mem_cons_of_mem x hp)
      simp only [intercCh, splitCh_append, splitCh_eq_single sep x hx]
      simp [ih (by simp) hr]

theorem str_data_append (s t : String) : (s ++ t).data = s.data ++ t.data := by
  cases s; cases t; rfl

theorem str_eq_of_data {s t : String} (h : s.data = t.data) : s = t := by
  cases s; cases t; exact congrArg String.mk h

/-- `listHas` detects a suffix occurrence (used for tags such as
`":latest"`). -/
theorem strHas_of_append (p q : String) : strHas (p ++ q) q = true := by
  simp only [strHas, str_data_append]
  exact listHas_of_append_self p.data q.data

/-- C5: an image reference without a tag, or tagged `latest`, gets the
unpinned warning and never the incompatible warning, whenever the CLI
version is not a nightly/dev build. -/
theorem checkImage_unpinned_precedence (version linter : String)
    (hnightly : strHas version "nightly" = false)
    (hdev : strHas version "dev" = false)
    (htag : strHas linter ":" = false ∨ ∃ p, linter = p ++ ":latest") :
    ImageWarning.unpinned ∈ CheckImage version linter ∧
    ImageWarning.incompatible ∉ CheckImage version linter := by
  have hexact : hasExactVersionTag linter = false := by
    rcases htag with hcolon | ⟨p, rfl⟩
    · simp [hasExactVersionTag, hcolon]
    · simp [hasExactVersionTag, strHas_of_append]
  simp only [CheckImage, hnightly, hdev, Bool.or_self, if_false, hexact,
    Bool.not_false, if_true]
  constructor
  · exact List.mem_append_right _ (by simp)
  · intro hmem
    rcases List.mem_append.mp hmem with hl | hr
    · by_cases hu : isUnofficialLinter linter = true <;> simp [hu] at hl
    · simp at hr

/-- Witness for C5 at a concrete unofficial-free, untagged reference. -/
theorem checkImage_unpinned_precedence_witness :
    ImageWarning.unpinned ∈ CheckImage "2025.1.3" "jetbrains/qodana-jvm" ∧
    ImageWarning.incompatible ∉ CheckImage "2025.1.3" "jetbrains/qodana-jvm" :=
  checkImage_unpinned_precedence "2025.1.3" "jetbrains/qodana-jvm"
    (by decide) (by decide) (Or.inl (by decide))

/-- Known-answer test: SHA-256 of the empty input. -/
theorem sha256_kat_empty :
    hexEncode (sha256 []) =
      "e3b0c44298fc1c149afbf4c8996fb92427ae41e4649b934ca495991b7852b855" := by
  rfl

/-- Known-answer test: SHA-256 of `"abc"`. -/
theorem sha256_kat_abc :
    hexEncode (sha256 (strBytes "abc")) =
      "ba7816bf8f01cfea414140de5dae2223b00361a396177a9cb410ff61f20015ad" := by
  rfl

/-- C6: the run identifier equals the first 8 hex characters of the
SHA-256 of the analyzer identity, a hyphen, and the first 8 hex
characters of the SHA-256 of the absolute project path; it is a pure
deterministic function of that pair, so equal pairs give equal
identifiers. -/
theorem computeId_deterministic_hash (abs : String → String)
    (linter ide projectDir : String) :
    computeId abs linter ide projectDir =
      (⟨(getHash (analyzerOf linter ide)).data.take 8⟩ : String) ++ "-" ++
        ⟨(getHash (abs projectDir)).data.take 8⟩
    ∧ ∀ (abs2 : String → String) (l2 i2 p2 : String),
        analyzerOf l2 i2 = analyzerOf linter ide →
        abs2 p2 = abs projectDir →
        computeId abs2 l2 i2 p2 = computeId abs linter ide projectDir := by
  refine ⟨rfl, ?_⟩
  intro abs2 l2 i2 p2 h1 h2
  simp only [computeId, h1, h2]

/-- Witness for C6: the identifier of a concrete (analyzer, path) pair,
and agreement between two contexts resolving to the same pair. -/
theorem computeId_deterministic_hash_witness :
    computeId (fun s => s) "qodana-go" "" "/proj" =
      (⟨(getHash "qodana-go").data.take 8⟩ : String) ++ "-" ++
        ⟨(getHash "/proj").data.take 8⟩
    ∧ computeId (fun _ => "/proj") "qodana-go" "QDGO" "ignored" =
        computeId (fun s => s) "qodana-go" "" "/proj"
    ∧ computeId (fun s => s) "qodana-go" "" "/proj" = "d0a359d2-79903f0c" :=
  ⟨(computeId_deterministic_hash (fun s => s) "qodana-go" "" "/proj").1,
   (computeId_deterministic_hash (fun s => s) "qodana-go" "" "/proj").2
     (fun _ => "/proj") "qodana-go" "QDGO" "ignored" (by decide) rfl,
   by rfl⟩

/-! ### Theorems about the configuration builder -/

/-- The two token environment entries can never coincide: they differ
at character index 7 of their variable names. -/
theorem token_entry_ne (u l : String) :
    QodanaToken ++ "=" ++ u ≠ QodanaLicenseOnlyToken ++ "=" ++ l := by
  intro h
  have hd := congrArg String.data h
  rw [show ((QodanaToken ++ "=") ++ u).data =
        (QodanaToken ++ "=").data ++ u.data from str_data_append _ _,
    show ((QodanaLicenseOnlyToken ++ "=") ++ l).data =
        (QodanaLicenseOnlyToken ++ "=").data ++ l.data from
      str_data_append _ _] at hd
  have h8 := congrArg (List.take 8) hd
  have e1 : ((QodanaToken ++ "=").data ++ u.data).take 8 =
      (QodanaToken ++ "=").data.take 8 :=
    List.take_append_of_le_length (by decide)
  have e2 : ((QodanaLicenseOnlyToken ++ "=").data ++ l.data).take 8 =
      (QodanaLicenseOnlyToken ++ "=").data.take 8 :=
    List.take_append_of_le_length (by decide)
  rw [e1, e2] at h8
  exact absurd h8 (by decide)

/-- Membership of the two token entries in the built environment list. -/
theorem buildDockerEnv_mem (baseEnv : List String) (u l : String)
    (hb1 : (QodanaToken ++ "=" ++ u) ∉ baseEnv)
    (hb2 : (QodanaLicenseOnlyToken ++ "=" ++ l) ∉ baseEnv) :
    ((QodanaToken ++ "=" ++ u) ∈ buildDockerEnv baseEnv u l ↔ u ≠ "")
    ∧ ((QodanaLicenseOnlyToken ++ "=" ++ l) ∈ buildDockerEnv baseEnv u l ↔
        (l ≠ "" ∧ u = "")) := by
  have henv : buildDockerEnv baseEnv u l =
      (if u ≠ "" then baseEnv ++ [QodanaToken ++ "=" ++ u] else baseEnv) ++
        (if l ≠ "" ∧ u = "" then [QodanaLicenseOnlyToken ++ "=" ++ l]
         else []) := by
    unfold buildDockerEnv
    by_cases hcond : l ≠ "" ∧ u = "" <;> simp [hcond]
  rw [henv]
  constructor
  · constructor
    · intro hmem
      rcases List.mem_append.mp hmem with hmem1 | hmem2
      · by_cases hu : u = ""
        · rw [if_neg (not_not_intro hu)] at hmem1
          exact absurd hmem1 hb1
        · exact hu
      · by_cases hcond : l ≠ "" ∧ u = ""
        · rw [if_pos hcond] at hmem2
          exact absurd (List.mem_singleton.mp hmem2) (token_entry_ne u l)
        · rw [if_neg hcond] at hmem2
          simp at hmem2
    · intro hu
      refine List.mem_append_left _ ?_
      rw [if_pos hu]
      exact List.mem_append_right _ (by simp)
  · constructor
    · intro hmem
      rcases List.mem_append.mp hmem with hmem1 | hmem2
      · by_cases hu : u = ""
        · rw [if_neg (not_not_intro hu)] at hmem1
          exact absurd hmem1 hb2
        · rw [if_pos hu] at hmem1
          rcases List.mem_append.mp hmem1 with hmm | hmm
          · exact absurd hmm hb2
          · exact absurd (List.mem_singleton.mp hmm).symm (token_entry_ne u l)
      · by_cases hcond : l ≠ "" ∧ u = ""
        · exact hcond
        · rw [if_neg hcond] at hmem2
          simp at hmem2
    · intro hcond
      refine List.mem_append_right _ ?_
      rw [if_pos hcond]
      simp

/-- A volume whose extraction is not the empty pair has both parts
non-empty. -/
theorem extract_parts_ne {v : String}
    (h : extractDockerVolumes v ≠ ("", "")) :
    (extractDockerVolumes v).1 ≠ "" ∧ (extractDockerVolumes v).2 ≠ "" := by
  unfold extractDockerVolumes at h ⊢
  by_cases hc : SafeSplit v ':' 0 ≠ "" ∧ SafeSplit v ':' 1 ≠ ""
  · simp only [if_pos hc]
    exact hc
  · simp only [if_neg hc] at h
    exact absurd rfl h

/-- When every volume parses, the user-mount list is exactly one bind
mount per volume string, in order, with the parsed source and target. -/
theorem buildUserMounts_ok (vols : List String)
    (h : ∀ v ∈ vols, extractDockerVolumes v ≠ ("", "")) :
    buildUserMounts vols =
      Except.ok (vols.map (fun v =>
        ⟨(extractDockerVolumes v).1, (extractDockerVolumes v).2⟩)) := by
  induction vols with
  | nil => rfl
  | cons v vs ih =>
    have hv := extract_parts_ne (h v (by simp))
    have hvs := ih (fun w hw => h w (List.mem_cons_of_mem v hw))
    simp [buildUserMounts, hv, hvs]

/-- When some volume fails to parse, the builder aborts with an error. -/
theorem buildUserMounts_error (vols : List String)
    (h : ∃ v ∈ vols, extractDockerVolumes v = ("", "")) :
    ∃ e, buildUserMounts vols = Except.error e := by
  induction vols with
  | nil => simp at h
  | cons v vs ih =>
    rcases h with ⟨w, hw, hbad⟩
    rcases List.mem_cons.mp hw with rfl | hmem
    · have h1 : (extractDockerVolumes w).1 = "" := by rw [hbad]
      refine ⟨"couldn't parse volume " ++ w, ?_⟩
      simp [buildUserMounts, h1]
    · by_cases hv : (extractDockerVolumes v).1 ≠ "" ∧ (extractDockerVolumes v).2 ≠ ""
      · rcases ih ⟨w, hmem, hbad⟩ with ⟨e, he⟩
        exact ⟨e, by simp [buildUserMounts, hv, he]⟩
      · exact ⟨"couldn't parse volume " ++ v, by simp [buildUserMounts, hv]⟩

/-! ## Theorems for the container lifecycle claims -/

theorem str_mk_data (s : String) : (⟨s.data⟩ : String) = s := by
  cases s; rfl

/-- Absence of a one-element occurrence means the element is absent. -/
theorem listHas_single_not_mem {α : Type} [DecidableEq α] (c : α)
    (l : List α) (h : listHas [c] l = false) : c ∉ l := by
  induction l with
  | nil => simp
  | cons a rest ih =>
    simp only [listHas, Bool.or_eq_false_iff] at h
    intro hmem
    rcases List.mem_cons.mp hmem with rfl | hm
    · have := h.1
      simp [listStarts] at this
    · exact ih h.2 hm

/-- A reference that starts with `https://` does not start with
`http://` (the two prefixes differ at character 5). -/
theorem strStarts_https_not_http (url : String)
    (h : strStarts url "https://" = true) :
    strStarts url "http://" = false := by
  cases hb : strStarts url "http://" with
  | false => rfl
  | true =>
    exfalso
    rcases (listStarts_iff "https://".data url.data).mp h with ⟨t1, ht1⟩
    rcases (listStarts_iff "http://".data url.data).mp hb with ⟨t2, ht2⟩
    have heq : "https://".data ++ t1 = "http://".data ++ t2 := by
      rw [← ht1, ← ht2]
    have h7 := congrArg (List.take 7) heq
    have e1 : ("https://".data ++ t1).take 7 = "https://".data.take 7 :=
      List.take_append_of_le_length (by decide)
    have e2 : ("http://".data ++ t2).take 7 = "http://".data.take 7 :=
      List.take_append_of_le_length (by decide)
    rw [e1, e2] at h7
    exact absurd h7 (by decide)

/-- When every user volume parses, `getDockerOptions` succeeds with the
assembled record. -/
theorem getDockerOptions_eq_ok (abs : String → String) (osEnv : OsEnv)
    (cmdOpts : List String) (c : ScanContext) (image : String)
    (hvol : ∀ v ∈ c.volumes, extractDockerVolumes v ≠ ("", "")) :
    getDockerOptions abs osEnv cmdOpts c image =
      Except.ok (mkDockerConfig abs osEnv cmdOpts c image
        (c.volumes.map (fun v =>
          ⟨(extractDockerVolumes v).1, (extractDockerVolumes v).2⟩))) := by
  unfold getDockerOptions
  rw [buildUserMounts_ok c.volumes hvol]
  rfl

/-- C2: the final container environment contains the upload-token entry
iff the upload token is non-empty, and the license-only entry iff the
license-only token is non-empty and the upload token is empty; in
particular, with both set only the upload-token entry appears. -/
theorem dockerEnv_token_exclusive (abs : String → String) (osEnv : OsEnv)
    (cmdOpts : List String) (c : ScanContext) (image : String)
    (hvol : ∀ v ∈ c.volumes, extractDockerVolumes v ≠ ("", ""))
    (hb1 : (QodanaToken ++ "=" ++ c.qodanaUploadToken) ∉ c.env)
    (hb2 : (QodanaLicenseOnlyToken ++ "=" ++ osEnv.licenseOnlyToken) ∉ c.env) :
    ∃ cfg, getDockerOptions abs osEnv cmdOpts c image = Except.ok cfg ∧
      ((QodanaToken ++ "=" ++ c.qodanaUploadToken) ∈ cfg.env ↔
        c.qodanaUploadToken ≠ "") ∧
      ((QodanaLicenseOnlyToken ++ "=" ++ osEnv.licenseOnlyToken) ∈ cfg.env ↔
        (osEnv.licenseOnlyToken ≠ "" ∧ c.qodanaUploadToken = "")) := by
  refine ⟨_, getDockerOptions_eq_ok abs osEnv cmdOpts c image hvol, ?_, ?_⟩
  · exact (buildDockerEnv_mem c.env c.qodanaUploadToken
      osEnv.licenseOnlyToken hb1 hb2).1
  · exact (buildDockerEnv_mem c.env c.qodanaUploadToken
      osEnv.licenseOnlyToken hb1 hb2).2

/-- Witness for C2 with both tokens set: only the upload entry appears. -/
theorem dockerEnv_token_exclusive_witness :
    ∃ cfg, getDockerOptions (fun s => s)
        (OsEnv.mk "LT" "" "" "https://qodana.cloud" false) []
        (ScanContext.mk [] "UT" "/c" "/p" "/r" "/rep" "id1" "" [] "" 0 false)
        "jetbrains/qodana-jvm:2025.1" = Except.ok cfg ∧
      ((QodanaToken ++ "=" ++ "UT") ∈ cfg.env ↔ ("UT" : String) ≠ "") ∧
      ((QodanaLicenseOnlyToken ++ "=" ++ "LT") ∈ cfg.env ↔
        (("LT" : String) ≠ "" ∧ ("UT" : String) = "")) :=
  dockerEnv_token_exclusive (fun s => s)
    (OsEnv.mk "LT" "" "" "https://qodana.cloud" false) []
    (ScanContext.mk [] "UT" "/c" "/p" "/r" "/rep" "id1" "" [] "" 0 false)
    "jetbrains/qodana-jvm:2025.1" (by simp) (by simp) (by simp)

/-- C7 counterexample: for the endpoint `http://203.0.113.5` — scheme
`http` but a non-local host — the code forces host networking while the
claim's condition (scheme `http` and local host) is false, so the
claimed equivalence fails at this input. -/
theorem networkMode_claim_counterexample :
    (getDockerOptions (fun s => s) (OsEnv.mk "" "" "" "http://203.0.113.5" false)
        [] (ScanContext.mk [] "" "/c" "/p" "/r" "/rep" "id" "" [] "" 0 false)
        "jetbrains/qodana-jvm:2025.1").map ContainerCreateConfig.networkMode =
      Except.ok "host"
    ∧ specLocalPlaintext "http://203.0.113.5" = false := by
  constructor
  · rfl
  · rfl

/-- C7 (amended): the network mode is forced to host iff the configured
cloud endpoint URL starts with `http://` (a plaintext scheme),
regardless of whether its host is local; an `https` endpoint leaves the
default (bridge) mode. -/
theorem networkMode_host_iff_plaintext (abs : String → String)
    (osEnv : OsEnv) (cmdOpts : List String) (c : ScanContext)
    (image : String)
    (hvol : ∀ v ∈ c.volumes, extractDockerVolumes v ≠ ("", "")) :
    ∃ cfg, getDockerOptions abs osEnv cmdOpts c image = Except.ok cfg ∧
      (cfg.networkMode = "host" ↔
        strStarts osEnv.cloudEndpointUrl "http://" = true) ∧
      (strStarts osEnv.cloudEndpointUrl "https://" = true →
        cfg.networkMode = "") := by
  refine ⟨_, getDockerOptions_eq_ok abs osEnv cmdOpts c image hvol, ?_, ?_⟩
  · show (if strStarts osEnv.cloudEndpointUrl "http://" then "host" else "")
        = "host" ↔ _
    by_cases hh : strStarts osEnv.cloudEndpointUrl "http://" = true
    · simp [hh]
    · simp only [Bool.not_eq_true] at hh
      simp [hh]
  · intro hs
    have hn := strStarts_https_not_http osEnv.cloudEndpointUrl hs
    show (if strStarts osEnv.cloudEndpointUrl "http://" then "host" else "")
        = ""
    simp [hn]

/-- Witness for the amended C7 at a local plaintext endpoint. -/
theorem networkMode_host_iff_plaintext_witness :
    ∃ cfg, getDockerOptions (fun s => s)
        (OsEnv.mk "" "" "" "http://localhost:8080" false) []
        (ScanContext.mk [] "" "/c" "/p" "/r" "/rep" "id" "" [] "" 0 false)
        "img" = Except.ok cfg ∧
      (cfg.networkMode = "host" ↔
        strStarts "http://localhost:8080" "http://" = true) ∧
      (strStarts "http://localhost:8080" "https://" = true →
        cfg.networkMode = "") :=
  networkMode_host_iff_plaintext (fun s => s)
    (OsEnv.mk "" "" "" "http://localhost:8080" false) []
    (ScanContext.mk [] "" "/c" "/p" "/r" "/rep" "id" "" [] "" 0 false)
    "img" (by simp)

/-- C8: the specification publishes the fixed internal debug port 5005
bound to host IP 0.0.0.0 at the requested host port and exposes it iff
the requested debug port is positive; otherwise no port bindings and no
exposed ports are configured. -/
theorem debugPort_bindings_iff (abs : String → String) (osEnv : OsEnv)
    (cmdOpts : List String) (c : ScanContext) (image : String)
    (hvol : ∀ v ∈ c.volumes, extractDockerVolumes v ≠ ("", "")) :
    ∃ cfg, getDockerOptions abs osEnv cmdOpts c image = Except.ok cfg ∧
      (0 < c.jvmDebugPort →
        cfg.portBindings =
          [(containerJvmDebugPort,
            [⟨"0.0.0.0", toString c.jvmDebugPort⟩])] ∧
        cfg.exposedPorts = [containerJvmDebugPort]) ∧
      (¬ 0 < c.jvmDebugPort →
        cfg.portBindings = [] ∧ cfg.exposedPorts = []) := by
  refine ⟨_, getDockerOptions_eq_ok abs osEnv cmdOpts c image hvol, ?_, ?_⟩
  · intro hpos
    constructor
    · show (if 0 < c.jvmDebugPort then
          [(containerJvmDebugPort,
            [PortBinding.mk "0.0.0.0" (toString c.jvmDebugPort)])]
        else []) = _
      simp [hpos]
    · show (if 0 < c.jvmDebugPort then [containerJvmDebugPort] else []) = _
      simp [hpos]
  · intro hneg
    constructor
    · show (if 0 < c.jvmDebugPort then
          [(containerJvmDebugPort,
            [PortBinding.mk "0.0.0.0" (toString c.jvmDebugPort)])]
        else []) = _
      simp [hneg]
    · show (if 0 < c.jvmDebugPort then [containerJvmDebugPort] else []) = _
      simp [hneg]

/-- Witness for C8 at debug port 5005. -/
theorem debugPort_bindings_iff_witness :
    ∃ cfg, getDockerOptions (fun s => s)
        (OsEnv.mk "" "" "" "https://q" false) []
        (ScanContext.mk [] "" "/c" "/p" "/r" "/rep" "id" "" [] "" 5005 false)
        "img" = Except.ok cfg ∧
      ((0 : Int) < 5005 →
        cfg.portBindings =
          [(containerJvmDebugPort, [⟨"0.0.0.0", toString (5005 : Int)⟩])] ∧
        cfg.exposedPorts = [containerJvmDebugPort]) ∧
      (¬ (0 : Int) < 5005 →
        cfg.portBindings = [] ∧ cfg.exposedPorts = []) :=
  debugPort_bindings_iff (fun s => s) (OsEnv.mk "" "" "" "https://q" false)
    [] (ScanContext.mk [] "" "/c" "/p" "/r" "/rep" "id" "" [] "" 5005 false)
    "img" (by simp)

/-- C9: `ContainerCleanup` makes no engine calls (no list, no stop) when
the process-wide container name still holds its sentinel value
`"qodana-cli"`; it is safe to call with no container ever created. -/
theorem containerCleanup_sentinel_noop
    (listResult : Except String (List GoContainer))
    (stopError : String → Option String) :
    ContainerCleanup "qodana-cli" listResult stopError = (none, []) := by
  unfold ContainerCleanup
  simp

/-- C1: when the engine daemon reports a non-Linux OS type, the run
returns status 1 with no image pull and no container create. -/
theorem runQodanaContainer_nonlinux (env : RunEnv) (abs : String → String)
    (osEnv : OsEnv) (cmdOpts : List String) (c : ScanContext)
    (image : String) (hinfo : env.infoError = none)
    (hos : env.osType ≠ "linux") :
    runQodanaContainer env abs osEnv cmdOpts c image =
      (RunOutcome.exit 1, [EngineCall.info]) ∧
    (∀ i a, EngineCall.imagePull i a ∉
      (runQodanaContainer env abs osEnv cmdOpts c image).2) ∧
    (∀ n, EngineCall.containerCreate n ∉
      (runQodanaContainer env abs osEnv cmdOpts c image).2) := by
  have h1 : runQodanaContainer env abs osEnv cmdOpts c image =
      (RunOutcome.exit 1, [EngineCall.info]) := by
    unfold runQodanaContainer
    rw [hinfo]
    simp [hos]
  refine ⟨h1, ?_, ?_⟩ <;> simp [h1]

/-- Witness for C1 with a daemon reporting OS type `darwin`. -/
theorem runQodanaContainer_nonlinux_witness :
    runQodanaContainer
        (RunEnv.mk none "darwin"
          (PullEnv.mk none none none
            (fun _ => AuthConfig.mk "" "" "" "" "" "" "") none none)
          none none (Except.ok 0))
        (fun s => s) (OsEnv.mk "" "" "" "https://q" false) []
        (ScanContext.mk [] "" "/c" "/p" "/r" "/rep" "id" "" [] "" 0 false)
        "jetbrains/qodana-jvm:2025.1" =
      (RunOutcome.exit 1, [EngineCall.info]) ∧
    (∀ i a, EngineCall.imagePull i a ∉
      (runQodanaContainer
        (RunEnv.mk none "darwin"
          (PullEnv.mk none none none
            (fun _ => AuthConfig.mk "" "" "" "" "" "" "") none none)
          none none (Except.ok 0))
        (fun s => s) (OsEnv.mk "" "" "" "https://q" false) []
        (ScanContext.mk [] "" "/c" "/p" "/r" "/rep" "id" "" [] "" 0 false)
        "jetbrains/qodana-jvm:2025.1").2) ∧
    (∀ n, EngineCall.containerCreate n ∉
      (runQodanaContainer
        (RunEnv.mk none "darwin"
          (PullEnv.mk none none none
            (fun _ => AuthConfig.mk "" "" "" "" "" "" "") none none)
          none none (Except.ok 0))
        (fun s => s) (OsEnv.mk "" "" "" "https://q" false) []
        (ScanContext.mk [] "" "/c" "/p" "/r" "/rep" "id" "" [] "" 0 false)
        "jetbrains/qodana-jvm:2025.1").2) :=
  runQodanaContainer_nonlinux _ (fun s => s)
    (OsEnv.mk "" "" "" "https://q" false) []
    (ScanContext.mk [] "" "/c" "/p" "/r" "/rep" "id" "" [] "" 0 false)
    "jetbrains/qodana-jvm:2025.1" rfl (by decide)

/-- C3: the pull strategy.  The first attempt is always anonymous; a
retry happens exactly on an authorization-class anonymous failure
(lower-cased error text containing "unauthorized", "denied" or
"forbidden"), carries the base64 JSON credentials looked up for the
registry host (the segment of the image reference before the first
`/`), and is the only retry; any other anonymous failure and any
failure of the credentialed retry is fatal, and the trace never exceeds
two pull attempts. -/
theorem pullImage_single_retry (env : PullEnv) (image : String) :
    ((pullImage env image).2.head? = some (EngineCall.imagePull image none))
    ∧ (env.anonError = none →
        pullImage env image =
          (env.readError.map
            (fun e => "couldn't read the image pull logs " ++ e),
           [EngineCall.imagePull image none]))
    ∧ (∀ e, env.anonError = some e → isDockerUnauthorizedError e = false →
        pullImage env image =
          (some ("can't pull image " ++ e), [EngineCall.imagePull image none]))
    ∧ (∀ e, env.anonError = some e → isDockerUnauthorizedError e = true →
        env.cfgLoadError = none → env.authLookupError = none →
        (pullImage env image).2 =
          [EngineCall.imagePull image none,
           EngineCall.imagePull image
             (some (encodeAuthToBase64
               (env.creds (SafeSplit image '/' 0))))] ∧
        (pullImage env image).1 =
          (match env.authError with
           | some e2 => some ("can't pull image from the private registry " ++ e2)
           | none => env.readError.map
               (fun r => "couldn't read the image pull logs " ++ r)))
    ∧ ((pullImage env image).2.length ≤ 2) := by
  rcases env with ⟨ae, cle, ale, cr, aue, re⟩
  refine ⟨?_, ?_, ?_, ?_, ?_⟩
  · cases ae with
    | none => simp [pullImage]
    | some e =>
      simp only [pullImage]
      by_cases hu : isDockerUnauthorizedError e
      · simp only [if_pos hu]
        cases cle <;> cases ale <;> cases aue <;> simp
      · simp [if_neg hu]
  · intro h
    simp only at h
    subst h
    simp [pullImage]
  · intro e h hu
    simp only at h
    subst h
    simp [pullImage, hu]
  · intro e h hu hc ha
    simp only at h hc ha
    subst h
    subst hc
    subst ha
    cases aue <;> simp [pullImage, hu]
  · cases ae with
    | none => simp [pullImage]
    | some e =>
      simp only [pullImage]
      by_cases hu : isDockerUnauthorizedError e
      · simp only [if_pos hu]
        cases cle <;> cases ale <;> cases aue <;> simp
      · simp [if_neg hu]

/-- Witness for C3: a concrete unauthorized anonymous failure triggers
exactly one credentialed retry for the registry host. -/
theorem pullImage_single_retry_witness :
    (pullImage
        (PullEnv.mk (some "pull access denied for repo") none none
          (fun _ => AuthConfig.mk "user" "pass" "" "" "" "" "") none none)
        "registry.example.com/team/img").2 =
      [EngineCall.imagePull "registry.example.com/team/img" none,
       EngineCall.imagePull "registry.example.com/team/img"
         (some (encodeAuthToBase64
           ((fun _ => AuthConfig.mk "user" "pass" "" "" "" "" "")
             (SafeSplit "registry.example.com/team/img" '/' 0))))] ∧
    (pullImage
        (PullEnv.mk (some "pull access denied for repo") none none
          (fun _ => AuthConfig.mk "user" "pass" "" "" "" "" "") none none)
        "registry.example.com/team/img").1 =
      (match (none : Option String) with
       | some e2 => some ("can't pull image from the private registry " ++ e2)
       | none => (none : Option String).map
           (fun r => "couldn't read the image pull logs " ++ r)) :=
  (pullImage_single_retry
      (PullEnv.mk (some "pull access denied for repo") none none
        (fun _ => AuthConfig.mk "user" "pass" "" "" "" "" "") none none)
      "registry.example.com/team/img").2.2.2.1
    "pull access denied for repo" rfl (by decide) rfl rfl

/-- C4: a POSIX volume string `source:target` with both parts non-empty
(and the separating colon unique) yields exactly one bind mount with
that source and target — one mount per volume string, in order — while
a volume string that does not parse into two non-empty parts makes the
configuration build fail fatally, before any container create call. -/
theorem volume_parse_policy :
    (∀ s t : String, s ≠ "" → t ≠ "" →
      strHas s ":" = false → strHas t ":" = false →
      extractDockerVolumes (s ++ ":" ++ t) = (s, t))
    ∧ (∀ vols : List String,
        (∀ v ∈ vols, extractDockerVolumes v ≠ ("", "")) →
        buildUserMounts vols = Except.ok (vols.map (fun v =>
          ⟨(extractDockerVolumes v).1, (extractDockerVolumes v).2⟩)))
    ∧ (∀ (env : RunEnv) (abs : String → String) (osEnv : OsEnv)
        (cmdOpts : List String) (c : ScanContext) (image : String),
        env.infoError = none → env.osType = "linux" →
        env.pull.anonError = none → env.pull.readError = none →
        (∃ v ∈ c.volumes, extractDockerVolumes v = ("", "")) →
        (∃ m, (runQodanaContainer env abs osEnv cmdOpts c image).1 =
          RunOutcome.fatal m) ∧
        (∀ n, EngineCall.containerCreate n ∉
          (runQodanaContainer env abs osEnv cmdOpts c image).2)) := by
  refine ⟨?_, ?_, ?_⟩
  · intro s t hs ht hcs hct
    have hsd : (':' : Char) ∉ s.data :=
      listHas_single_not_mem ':' s.data hcs
    have htd : (':' : Char) ∉ t.data :=
      listHas_single_not_mem ':' t.data hct
    have hdata : ((s ++ ":") ++ t).data = s.data ++ ':' :: t.data := by
      rw [str_data_append, str_data_append]
      simp
    have hsplit : splitCh ':' ((s ++ ":") ++ t).data = [s.data, t.data] := by
      rw [hdata, splitCh_append, splitCh_eq_single ':' s.data hsd,
        splitCh_eq_single ':' t.data htd]
      rfl
    have hss : splitStr ((s ++ ":") ++ t) ':' = [s, t] := by
      unfold splitStr
      rw [hsplit]
      simp [str_mk_data]
    unfold extractDockerVolumes SafeSplit
    rw [hss]
    simp [hs, ht]
  · exact buildUserMounts_ok
  · intro env abs osEnv cmdOpts c image hinfo hos hanon hread hbad
    rcases buildUserMounts_error c.volumes hbad with ⟨e, he⟩
    have hgdo : getDockerOptions abs osEnv cmdOpts c image =
        Except.error e := by
      unfold getDockerOptions
      rw [he]
      rfl
    have hrun : runQodanaContainer env abs osEnv cmdOpts c image =
        (RunOutcome.fatal e,
          EngineCall.info ::
            (if c.skipPull then ([] : List EngineCall)
             else [EngineCall.imagePull image none])) := by
      unfold runQodanaContainer
      rw [hinfo]
      simp only [hos, ne_eq, not_true_eq_false, if_false]
      by_cases hskip : c.skipPull
      · simp [hskip, hgdo]
      · simp [hskip, pullImage, hanon, hread, hgdo]
    constructor
    · exact ⟨e, by rw [hrun]⟩
    · intro n
      rw [hrun]
      by_cases hskip : c.skipPull <;> simp [hskip]

/-- Witness for C4: a well-formed volume parses to one mount; the
malformed volume `"badvolume"` (no target) makes the run fail fatally
with no create call. -/
theorem volume_parse_policy_witness :
    extractDockerVolumes ("src" ++ ":" ++ "dst") = ("src", "dst") ∧
    buildUserMounts ["a:b"] = Except.ok [⟨(extractDockerVolumes "a:b").1,
      (extractDockerVolumes "a:b").2⟩] ∧
    (∃ m, (runQodanaContainer
        (RunEnv.mk none "linux"
          (PullEnv.mk none none none
            (fun _ => AuthConfig.mk "" "" "" "" "" "" "") none none)
          none none (Except.ok 0))
        (fun s => s) (OsEnv.mk "" "" "" "https://q" false) []
        (ScanContext.mk [] "" "/c" "/p" "/r" "/rep" "id" ""
          ["badvolume"] "" 0 false) "img").1 = RunOutcome.fatal m) ∧
    (∀ n, EngineCall.containerCreate n ∉
      (runQodanaContainer
        (RunEnv.mk none "linux"
          (PullEnv.mk none none none
            (fun _ => AuthConfig.mk "" "" "" "" "" "" "") none none)
          none none (Except.ok 0))
        (fun s => s) (OsEnv.mk "" "" "" "https://q" false) []
        (ScanContext.mk [] "" "/c" "/p" "/r" "/rep" "id" ""
          ["badvolume"] "" 0 false) "img").2) :=
  ⟨volume_parse_policy.1 "src" "dst" (by decide) (by decide) (by decide)
      (by decide),
   volume_parse_policy.2.1 ["a:b"] (by decide),
   (volume_parse_policy.2.2
      (RunEnv.mk none "linux"
        (PullEnv.mk none none none
          (fun _ => AuthConfig.mk "" "" "" "" "" "" "") none none)
        none none (Except.ok 0))
      (fun s => s) (OsEnv.mk "" "" "" "https://q" false) []
      (ScanContext.mk [] "" "/c" "/p" "/r" "/rep" "id" ""
        ["badvolume"] "" 0 false) "img" rfl rfl rfl rfl
      ⟨"badvolume", by simp, by decide⟩).1,
   (volume_parse_policy.2.2
      (RunEnv.mk none "linux"
        (PullEnv.mk none none none
          (fun _ => AuthConfig.mk "" "" "" "" "" "" "") none none)
        none none (Except.ok 0))
      (fun s => s) (OsEnv.mk "" "" "" "https://q" false) []
      (ScanContext.mk [] "" "/c" "/p" "/r" "/rep" "id" ""
        ["badvolume"] "" 0 false) "img" rfl rfl rfl rfl
      ⟨"badvolume", by simp, by decide⟩).2⟩

/-! ### Lemmas about the lexical path semantics -/

theorem str_ne_empty_of_rooted {p : String}
    (h : strStarts p "/" = true) : p ≠ "" := by
  intro he
  subst he
  simp [strStarts, listStarts] at h

theorem strStarts_data {p : String} (h : strStarts p "/" = true) :
    ∃ t, p.data = '/' :: t := by
  rcases (listStarts_iff "/".data p.data).mp h with ⟨t, ht⟩
  exact ⟨t, ht⟩

theorem strStarts_append_rooted (p x : String)
    (h : strStarts p "/" = true) : strStarts (p ++ x) "/" = true := by
  rcases strStarts_data h with ⟨t, ht⟩
  apply (listStarts_iff "/".data (p ++ x).data).mpr
  refine ⟨t ++ x.data, ?_⟩
  rw [str_data_append, ht]
  rfl

theorem splitStr_no_sep (s : String) (c : Char) :
    ∀ x ∈ splitStr s c, c ∉ x.data := by
  intro x hx
  rcases List.mem_map.mp hx with ⟨l, hl, rfl⟩
  simpa using splitCh_sep_not_mem c s.data l hl

theorem joinParts_ne_empty (parts : List String) (hne : parts ≠ [])
    (h : ∀ x ∈ parts, x ≠ "") : joinParts parts ≠ "" := by
  cases parts with
  | nil => exact absurd rfl hne
  | cons x rest =>
    cases rest with
    | nil =>
      intro hh
      apply h x (by simp)
      have hd := congrArg String.data hh
      simp only [joinParts, List.map, intercCh] at hd
      exact str_eq_of_data hd
    | cons y rest2 =>
      intro hh
      have hd := congrArg String.data hh
      simp only [joinParts, List.map, intercCh] at hd
      simp at hd

theorem splitStr_joinParts (parts : List String) (hne : parts ≠ [])
    (h : ∀ x ∈ parts, ('/' : Char) ∉ x.data) :
    splitStr (joinParts parts) '/' = parts := by
  unfold splitStr joinParts
  rw [show (⟨intercCh '/' (parts.map String.data)⟩ : String).data =
    intercCh '/' (parts.map String.data) from rfl]
  rw [splitCh_intercCh '/' (parts.map String.data) (by simpa using hne)
    (by intro l hl
        rcases List.mem_map.mp hl with ⟨x, hx, rfl⟩
        exact h x hx)]
  rw [List.map_map]
  calc parts.map (String.mk ∘ String.data)
      = parts.map id := List.map_congr_left (fun x _ => str_mk_data x)
    _ = parts := List.map_id parts

theorem splitStr_rooted (body : String) :
    splitStr ("/" ++ body) '/' = "" :: splitStr body '/' := by
  unfold splitStr
  have hd : (("/" : String) ++ body).data = '/' :: body.data := by
    rw [str_data_append]
    rfl
  rw [hd]
  simp [splitCh]

theorem joinParts_dotdot (rest : List String) :
    strStarts (joinParts (".." :: rest)) ".." = true := by
  cases rest with
  | nil => exact listStarts_refl _
  | cons y r2 =>
    show listStarts "..".data (intercCh '/' (("..".data) :: (y :: r2).map String.data)) = true
    rw [show intercCh '/' (("..".data) :: (y :: r2).map String.data) =
      "..".data ++ '/' :: intercCh '/' ((y :: r2).map String.data) from rfl]
    exact (listStarts_iff _ _).mpr ⟨_, rfl⟩

theorem cleanLoop_mem (parts : List String) (rooted : Bool) :
    ∀ (acc : List String) (x : String), x ∈ cleanLoop rooted acc parts →
      x ∈ acc ∨ x ∈ parts ∨ x = ".." := by
  induction parts with
  | nil =>
    intro acc x hx
    simp only [cleanLoop] at hx
    exact Or.inl (List.mem_reverse.mp hx)
  | cons p ps ih =>
    intro acc x hx
    simp only [cleanLoop] at hx
    by_cases h1 : p = "" ∨ p = "."
    · rw [if_pos h1] at hx
      rcases ih acc x hx with h | h | h
      · exact Or.inl h
      · exact Or.inr (Or.inl (List.mem_cons_of_mem p h))
      · exact Or.inr (Or.inr h)
    · rw [if_neg h1] at hx
      by_cases h2 : p = ".."
      · rw [if_pos h2] at hx
        cases acc with
        | nil =>
          dsimp only at hx
          rcases ih _ x hx with h | h | h
          · by_cases hr : rooted
            · rw [if_pos hr] at h
              simp at h
            · rw [if_neg hr] at h
              rcases List.mem_singleton.mp h with rfl
              exact Or.inr (Or.inr rfl)
          · exact Or.inr (Or.inl (List.mem_cons_of_mem p h))
          · exact Or.inr (Or.inr h)
        | cons q rest =>
          dsimp only at hx
          by_cases h3 : q = ".."
          · rw [if_pos h3] at hx
            rcases ih _ x hx with h | h | h
            · rcases List.mem_cons.mp h with hpx | h
              · exact Or.inr (Or.inr (hpx.trans h2))
              · exact Or.inl h
            · exact Or.inr (Or.inl (List.mem_cons_of_mem p h))
            · exact Or.inr (Or.inr h)
          · rw [if_neg h3] at hx
            rcases ih rest x hx with h | h | h
            · exact Or.inl (List.mem_cons_of_mem q h)
            · exact Or.inr (Or.inl (List.mem_cons_of_mem p h))
            · exact Or.inr (Or.inr h)
      · rw [if_neg h2] at hx
        rcases ih (p :: acc) x hx with h | h | h
        · rcases List.mem_cons.mp h with rfl | h
          · exact Or.inr (Or.inl (List.mem_cons_self x ps))
          · exact Or.inl h
        · exact Or.inr (Or.inl (List.mem_cons_of_mem p h))
        · exact Or.inr (Or.inr h)

theorem cleanLoop_norm (parts : List String) :
    ∀ acc : List String, (∀ a ∈ acc, a ≠ "" ∧ a ≠ "." ∧ a ≠ "..") →
    ∀ x ∈ cleanLoop true acc parts, x ≠ "" ∧ x ≠ "." ∧ x ≠ ".." := by
  induction parts with
  | nil =>
    intro acc hacc x hx
    simp only [cleanLoop] at hx
    exact hacc x (List.mem_reverse.mp hx)
  | cons p ps ih =>
    intro acc hacc x hx
    simp only [cleanLoop] at hx
    by_cases h1 : p = "" ∨ p = "."
    · rw [if_pos h1] at hx
      exact ih acc hacc x hx
    · rw [if_neg h1] at hx
      by_cases h2 : p = ".."
      · rw [if_pos h2] at hx
        cases acc with
        | nil =>
          dsimp only at hx
          rw [if_pos trivial] at hx
          exact ih [] (by simp) x hx
        | cons q rest =>
          dsimp only at hx
          by_cases h3 : q = ".."
          · exact absurd h3 (hacc q (by simp)).2.2
          · rw [if_neg h3] at hx
            exact ih rest (fun a ha => hacc a (List.mem_cons_of_mem q ha)) x hx
      · rw [if_neg h2] at hx
        refine ih (p :: acc) ?_ x hx
        intro a ha
        rcases List.mem_cons.mp ha with rfl | ha
        · exact ⟨fun hh => h1 (Or.inl hh), fun hh => h1 (Or.inr hh), h2⟩
        · exact hacc a ha

theorem cleanLoop_id (rooted : Bool) :
    ∀ (parts acc : List String),
      (∀ x ∈ parts, x ≠ "" ∧ x ≠ "." ∧ x ≠ "..") →
      cleanLoop rooted acc parts = acc.reverse ++ parts := by
  intro parts
  induction parts with
  | nil =>
    intro acc _
    simp [cleanLoop]
  | cons p ps ih =>
    intro acc hp
    have hph := hp p (by simp)
    have h1 : ¬(p = "" ∨ p = ".") := by
      rintro (h | h)
      · exact hph.1 h
      · exact hph.2.1 h
    simp only [cleanLoop, if_neg h1, if_neg hph.2.2]
    rw [ih (p :: acc) (fun x hx => hp x (List.mem_cons_of_mem p hx))]
    simp

theorem rootedCleanParts_norm (path : String) :
    ∀ x ∈ rootedCleanParts path, x ≠ "" ∧ x ≠ "." ∧ x ≠ ".." :=
  cleanLoop_norm (splitStr path '/') [] (by simp)

theorem rootedCleanParts_no_sep (path : String) :
    ∀ x ∈ rootedCleanParts path, ('/' : Char) ∉ x.data := by
  intro x hx
  rcases cleanLoop_mem (splitStr path '/') true [] x hx with h | h | h
  · simp at h
  · exact splitStr_no_sep path '/' x h
  · subst h
    decide

theorem cleanPath_rooted (path : String) (h : strStarts path "/" = true) :
    cleanPath path = "/" ++ joinParts (rootedCleanParts path) := by
  have hne : path ≠ "" := str_ne_empty_of_rooted h
  simp [cleanPath, rootedCleanParts, hne, h]

theorem cleanPath_starts (path : String) (h : strStarts path "/" = true) :
    strStarts (cleanPath path) "/" = true := by
  rw [cleanPath_rooted path h]
  apply (listStarts_iff "/".data _).mpr
  refine ⟨(joinParts (rootedCleanParts path)).data, ?_⟩
  rw [str_data_append]

theorem cleanedParts_root_join (parts : List String) (hne : parts ≠ [])
    (hnem : ∀ x ∈ parts, x ≠ "")
    (hno : ∀ x ∈ parts, ('/' : Char) ∉ x.data) :
    cleanedParts ("/" ++ joinParts parts) = parts := by
  have hjne : joinParts parts ≠ "" := joinParts_ne_empty parts hne hnem
  have h1 : ("/" ++ joinParts parts) ≠ "." := by
    intro hh
    have hd := congrArg String.data hh
    rw [str_data_append] at hd
    have hh2 := congrArg (List.drop 1) hd
    simp at hh2
    exact hjne (str_eq_of_data hh2)
  have h2 : strStarts ("/" ++ joinParts parts) "/" = true := by
    apply (listStarts_iff "/".data _).mpr
    refine ⟨(joinParts parts).data, ?_⟩
    rw [str_data_append]
  have h3 : (("/" ++ joinParts parts).data).drop 1 = (joinParts parts).data := by
    rw [str_data_append]
    rfl
  unfold cleanedParts
  rw [if_neg h1, if_pos (by exact_mod_cast h2), h3]
  have h4 : (⟨(joinParts parts).data⟩ : String) = joinParts parts :=
    str_mk_data _
  rw [h4, if_neg hjne]
  exact splitStr_joinParts parts hne hno

theorem cleanedParts_cleanPath (path : String)
    (h : strStarts path "/" = true) :
    cleanedParts (cleanPath path) = rootedCleanParts path := by
  rw [cleanPath_rooted path h]
  by_cases hp : rootedCleanParts path = []
  · rw [hp]
    rfl
  · exact cleanedParts_root_join _ hp
      (fun x hx => (rootedCleanParts_norm path x hx).1)
      (rootedCleanParts_no_sep path)

theorem cleanPath_idem (path : String) (h : strStarts path "/" = true) :
    cleanPath (cleanPath path) = cleanPath path := by
  rw [cleanPath_rooted path h]
  by_cases hp : rootedCleanParts path = []
  · rw [hp]
    rfl
  · have hnorm := rootedCleanParts_norm path
    have hnos := rootedCleanParts_no_sep path
    have hra : strStarts ("/" ++ joinParts (rootedCleanParts path)) "/" = true := by
      apply (listStarts_iff "/".data _).mpr
      refine ⟨(joinParts (rootedCleanParts path)).data, ?_⟩
      rw [str_data_append]
    rw [cleanPath_rooted _ hra]
    have hrp : rootedCleanParts ("/" ++ joinParts (rootedCleanParts path)) =
        rootedCleanParts path := by
      have e1 : rootedCleanParts ("/" ++ joinParts (rootedCleanParts path)) =
          cleanLoop true []
            (splitStr ("/" ++ joinParts (rootedCleanParts path)) '/') := rfl
      rw [e1, splitStr_rooted, splitStr_joinParts _ hp hnos]
      have hskip : cleanLoop true [] ("" :: rootedCleanParts path) =
          cleanLoop true [] (rootedCleanParts path) := by
        simp [cleanLoop]
      rw [hskip]
      unfold rootedCleanParts
      rw [cleanLoop_id true _ [] (by
        intro x hx
        exact hnorm x hx)]
      rfl
    rw [hrp]

theorem joinPath_rooted (dest name : String)
    (hroot : strStarts dest "/" = true) (hclean : cleanPath dest = dest) :
    strStarts (joinPath dest name) "/" = true ∧
    cleanPath (joinPath dest name) = joinPath dest name := by
  have hdne : dest ≠ "" := str_ne_empty_of_rooted hroot
  unfold joinPath
  rw [if_neg hdne]
  by_cases hn : name = ""
  · rw [if_pos hn, hclean]
    exact ⟨hroot, hclean⟩
  · rw [if_neg hn]
    have hcat : strStarts (dest ++ "/" ++ name) "/" = true :=
      strStarts_append_rooted _ name (strStarts_append_rooted _ "/" hroot)
    exact ⟨cleanPath_starts _ hcat, cleanPath_idem _ hcat⟩

theorem dropCommon_fst_nil {α : Type} [DecidableEq α] (as bs : List α)
    (h : (dropCommon as bs).1 = []) : listStarts as bs = true := by
  induction as generalizing bs with
  | nil => simp [listStarts]
  | cons a as ih =>
    cases bs with
    | nil => simp [dropCommon] at h
    | cons b bs2 =>
      by_cases hab : a = b
      · subst hab
        simp only [dropCommon, if_pos rfl] at h
        have hrec := ih bs2 h
        simp [listStarts, hrec]
      · simp [dropCommon, hab] at h

/-- The components of a rooted path whose character data is an explicit
`'/' :: l`. -/
theorem cleanedParts_cons_slash (l : List Char) (hl : l ≠ []) :
    cleanedParts ⟨'/' :: l⟩ = splitStr ⟨l⟩ '/' := by
  unfold cleanedParts
  have h1 : (⟨'/' :: l⟩ : String) ≠ "." := by
    intro hh
    have hd := congrArg String.data hh
    simp at hd
  have h2 : strStarts ⟨'/' :: l⟩ "/" = true :=
    (listStarts_iff _ _).mpr ⟨l, rfl⟩
  rw [if_neg h1, if_pos h2]
  show (if (⟨l⟩ : String) = "" then [] else splitStr ⟨l⟩ '/') = splitStr ⟨l⟩ '/'
  rw [if_neg (by
    intro hh
    exact hl (by simpa using congrArg String.data hh))]

/-- A target string-prefixed by `Clean(dest) + "/"` (the zip guard) has
the destination components as a prefix of its components. -/
theorem zip_guard_inside (dest target : String)
    (hroot : strStarts dest "/" = true) (hclean : cleanPath dest = dest)
    (hne : dest ≠ "/")
    (hg : strStarts target (dest ++ "/") = true) :
    listStarts (cleanedParts dest) (cleanedParts target) = true := by
  have hbp : cleanedParts dest = rootedCleanParts dest := by
    conv_lhs => rw [← hclean]
    exact cleanedParts_cleanPath dest hroot
  have hdest : dest = "/" ++ joinParts (rootedCleanParts dest) := by
    conv_lhs => rw [← hclean]
    exact cleanPath_rooted dest hroot
  have hbpne : rootedCleanParts dest ≠ [] := by
    intro hnil
    apply hne
    rw [hdest, hnil]
    decide
  rcases (listStarts_iff (dest ++ "/").data target.data).mp hg with ⟨t, ht⟩
  have ht2 : target.data = dest.data ++ '/' :: t := by
    rw [ht, str_data_append]
    simp
  have hdd : dest.data = '/' :: (joinParts (rootedCleanParts dest)).data := by
    conv_lhs => rw [hdest]
    rw [str_data_append]
    rfl
  have ht3 : target.data =
      '/' :: ((joinParts (rootedCleanParts dest)).data ++ '/' :: t) := by
    rw [ht2, hdd]
    rfl
  have hsplit : splitStr
      (⟨(joinParts (rootedCleanParts dest)).data ++ '/' :: t⟩ : String) '/' =
      rootedCleanParts dest ++ splitStr (⟨t⟩ : String) '/' := by
    unfold splitStr
    rw [show (⟨(joinParts (rootedCleanParts dest)).data ++ '/' :: t⟩ :
        String).data = (joinParts (rootedCleanParts dest)).data ++ '/' :: t
      from rfl]
    rw [splitCh_append, List.map_append]
    congr 1
    exact splitStr_joinParts _ hbpne (rootedCleanParts_no_sep dest)
  have htgt : target =
      ⟨'/' :: ((joinParts (rootedCleanParts dest)).data ++ '/' :: t)⟩ :=
    str_eq_of_data ht3
  have hct : cleanedParts target =
      rootedCleanParts dest ++ splitStr (⟨t⟩ : String) '/' := by
    rw [htgt, cleanedParts_cons_slash _ (by simp), hsplit]
  rw [hbp, hct]
  exact (listStarts_iff _ _).mpr ⟨_, rfl⟩

/-- Evaluation of `relPath` on cleaned rooted unequal paths. -/
theorem relPath_eval (dest target : String)
    (hclean : cleanPath dest = dest) (htclean : cleanPath target = target)
    (hroot : strStarts dest "/" = true)
    (htroot : strStarts target "/" = true) (hne : target ≠ dest) :
    relPath dest target =
      (if (dropCommon (cleanedParts dest) (cleanedParts target)).1.head? =
          some ".." then none
       else if (dropCommon (cleanedParts dest) (cleanedParts target)).1 = []
       then some (joinParts
         (dropCommon (cleanedParts dest) (cleanedParts target)).2)
       else some (joinParts
         ((dropCommon (cleanedParts dest) (cleanedParts target)).1.map
             (fun _ => "..") ++
           (dropCommon (cleanedParts dest) (cleanedParts target)).2))) := by
  unfold relPath
  rw [hclean, htclean, if_neg hne, hroot, htroot]
  simp

/-- A target accepted by `isInDirectory` (the tar guard) has the
destination components as a prefix of its components. -/
theorem isInDirectory_inside (dest target : String)
    (hclean : cleanPath dest = dest) (htclean : cleanPath target = target)
    (hroot : strStarts dest "/" = true)
    (htroot : strStarts target "/" = true)
    (h : isInDirectory dest target = true) :
    listStarts (cleanedParts dest) (cleanedParts target) = true := by
  by_cases heq : target = dest
  · subst heq
    exact listStarts_refl _
  · have hrel := relPath_eval dest target hclean htclean hroot htroot heq
    unfold isInDirectory at h
    rw [hrel] at h
    cases hfst : (dropCommon (cleanedParts dest) (cleanedParts target)).1 with
    | nil => exact dropCommon_fst_nil _ _ hfst
    | cons x xs =>
      exfalso
      rw [hfst] at h
      by_cases hx : x = ".."
      · rw [if_pos (by rw [hx]; rfl)] at h
        simp at h
      · rw [if_neg (by simp [hx]), if_neg (by simp)] at h
        rw [show (x :: xs).map (fun _ : String => (".." : String)) =
          ".." :: xs.map (fun _ => "..") from rfl, List.cons_append] at h
        dsimp only at h
        rw [joinParts_dotdot] at h
        simp at h

/-- The extraction error text contains "illegal file path". -/
theorem illegal_in_msg (a : String) :
    strHas (a ++ ": illegal file path") "illegal file path" = true := by
  have hx : (": illegal file path" : String).data =
      (": " : String).data ++ ("illegal file path" : String).data := by decide
  have hsplit2 : a ++ ": illegal file path" =
      (a ++ ": ") ++ "illegal file path" := by
    apply str_eq_of_data
    rw [str_data_append, str_data_append, str_data_append, hx,
      List.append_assoc]
  rw [hsplit2]
  exact strHas_of_append _ _

theorem unpackZip_cons (destPath : String) (f : ZipEntry)
    (rest : List ZipEntry) :
    unpackZip destPath (f :: rest) =
      (if !(strStarts (joinPath destPath f.name)
          (cleanPath destPath ++ "/")) then
        ([], some (joinPath destPath f.name ++ ": illegal file path"))
      else
        ((joinPath destPath f.name) :: (unpackZip destPath rest).1,
          (unpackZip destPath rest).2)) := rfl

theorem extractTarGz_cons (destPath : String) (f : TarEntry)
    (rest : List TarEntry) :
    extractTarGz destPath (f :: rest) =
      (if !(isInDirectory destPath (joinPath destPath f.name)) then
        ([], some (joinPath destPath f.name ++ ": illegal file path"))
      else
        match f.typeflag with
        | TarType.dir =>
          ((joinPath destPath f.name) :: (extractTarGz destPath rest).1,
            (extractTarGz destPath rest).2)
        | TarType.reg =>
          ((joinPath destPath f.name) :: (extractTarGz destPath rest).1,
            (extractTarGz destPath rest).2)
        | TarType.other => extractTarGz destPath rest) := rfl

/-- C10: for a cleaned absolute destination, both extractors write only
paths whose components extend the destination's components, and the
presence of any entry whose name resolves outside the destination makes
extraction fail with an "illegal file path" error. -/
theorem archive_traversal_guard (dest : String)
    (hroot : strStarts dest "/" = true)
    (hclean : cleanPath dest = dest)
    (hne : dest ≠ "/") :
    (∀ entries : List ZipEntry,
      (∀ p ∈ (unpackZip dest entries).1,
        listStarts (cleanedParts dest) (cleanedParts p) = true) ∧
      ((∃ en ∈ entries, resolvesOutside dest en.name = true) →
        ∃ m, (unpackZip dest entries).2 = some m ∧
          strHas m "illegal file path" = true)) ∧
    (∀ entries : List TarEntry,
      (∀ p ∈ (extractTarGz dest entries).1,
        listStarts (cleanedParts dest) (cleanedParts p) = true) ∧
      ((∃ en ∈ entries, resolvesOutside dest en.name = true) →
        ∃ m, (extractTarGz dest entries).2 = some m ∧
          strHas m "illegal file path" = true)) := by
  have hro : ∀ name, resolvesOutside dest name =
      !(listStarts (cleanedParts dest)
        (cleanedParts (joinPath dest name))) := by
    intro name
    unfold resolvesOutside
    rw [hclean]
  have hzip_pass : ∀ name : String,
      strStarts (joinPath dest name) (cleanPath dest ++ "/") = true →
      resolvesOutside dest name = false := by
    intro name hg
    rw [hro, zip_guard_inside dest (joinPath dest name) hroot hclean hne
      (by rwa [hclean] at hg)]
    rfl
  have htar_pass : ∀ name : String,
      isInDirectory dest (joinPath dest name) = true →
      resolvesOutside dest name = false := by
    intro name hg
    have hj := joinPath_rooted dest name hroot hclean
    rw [hro, isInDirectory_inside dest (joinPath dest name) hclean hj.2
      hroot hj.1 hg]
    rfl
  constructor
  · intro entries
    induction entries with
    | nil =>
      constructor
      · intro p hp
        simp [unpackZip] at hp
      · rintro ⟨en, hen, _⟩
        simp at hen
    | cons f rest ih =>
      constructor
      · intro p hp
        rw [unpackZip_cons] at hp
        cases hg : strStarts (joinPath dest f.name)
            (cleanPath dest ++ "/") with
        | false =>
          rw [hg] at hp
          simp at hp
        | true =>
          rw [hg] at hp
          simp only [Bool.not_true, Bool.false_eq_true, if_false] at hp
          rcases List.mem_cons.mp hp with rfl | hp
          · exact zip_guard_inside dest _ hroot hclean hne
              (by rwa [hclean] at hg)
          · exact ih.1 p hp
      · rintro ⟨en, hen, hout⟩
        cases hg : strStarts (joinPath dest f.name)
            (cleanPath dest ++ "/") with
        | false =>
          refine ⟨joinPath dest f.name ++ ": illegal file path", ?_,
            illegal_in_msg _⟩
          rw [unpackZip_cons, hg]
          rfl
        | true =>
          rcases List.mem_cons.mp hen with rfl | hmem
          · rw [hzip_pass en.name hg] at hout
            exact absurd hout (by simp)
          · rcases ih.2 ⟨en, hmem, hout⟩ with ⟨m, hm, hill⟩
            refine ⟨m, ?_, hill⟩
            rw [unpackZip_cons, hg]
            simpa using hm
  · intro entries
    induction entries with
    | nil =>
      constructor
      · intro p hp
        simp [extractTarGz] at hp
      · rintro ⟨en, hen, _⟩
        simp at hen
    | cons f rest ih =>
      constructor
      · intro p hp
        rw [extractTarGz_cons] at hp
        cases hg : isInDirectory dest (joinPath dest f.name) with
        | false =>
          rw [hg] at hp
          simp at hp
        | true =>
          rw [hg] at hp
          simp only [Bool.not_true, Bool.false_eq_true, if_false] at hp
          have hj := joinPath_rooted dest f.name hroot hclean
          have hin := isInDirectory_inside dest (joinPath dest f.name)
            hclean hj.2 hroot hj.1 hg
          cases hf : f.typeflag <;> rw [hf] at hp <;> dsimp only at hp
          · rcases List.mem_cons.mp hp with rfl | hp
            · exact hin
            · exact ih.1 p hp
          · rcases List.mem_cons.mp hp with rfl | hp
            · exact hin
            · exact ih.1 p hp
          · exact ih.1 p hp
      · rintro ⟨en, hen, hout⟩
        cases hg : isInDirectory dest (joinPath dest f.name) with
        | false =>
          refine ⟨joinPath dest f.name ++ ": illegal file path", ?_,
            illegal_in_msg _⟩
          rw [extractTarGz_cons, hg]
          rfl
        | true =>
          rcases List.mem_cons.mp hen with rfl | hmem
          · rw [htar_pass en.name hg] at hout
            exact absurd hout (by simp)
          · rcases ih.2 ⟨en, hmem, hout⟩ with ⟨m, hm, hill⟩
            refine ⟨m, ?_, hill⟩
            rw [extractTarGz_cons, hg]
            cases hf : f.typeflag <;> dsimp only <;> simpa using hm

/-- Witness for C10: a benign entry is written inside the destination;
the traversal entry `../evil` aborts both extractors with an "illegal
file path" error. -/
theorem archive_traversal_guard_witness :
    (∀ p ∈ (unpackZip "/tmp/out" [ZipEntry.mk "ok.txt" false]).1,
      listStarts (cleanedParts "/tmp/out") (cleanedParts p) = true) ∧
    (∃ m, (unpackZip "/tmp/out" [ZipEntry.mk "../evil" false]).2 = some m ∧
      strHas m "illegal file path" = true) ∧
    (∃ m, (extractTarGz "/tmp/out"
        [TarEntry.mk "../evil" TarType.reg]).2 = some m ∧
      strHas m "illegal file path" = true) :=
  ⟨((archive_traversal_guard "/tmp/out" (by decide) (by decide)
      (by decide)).1 [ZipEntry.mk "ok.txt" false]).1,
   ((archive_traversal_guard "/tmp/out" (by decide) (by decide)
      (by decide)).1 [ZipEntry.mk "../evil" false]).2
     ⟨ZipEntry.mk "../evil" false, by simp, by decide⟩,
   ((archive_traversal_guard "/tmp/out" (by decide) (by decide)
      (by decide)).2 [TarEntry.mk "../evil" TarType.reg]).2
     ⟨TarEntry.mk "../evil" TarType.reg, by simp, by decide⟩⟩

end Qodana
